import Mathlib

/-!
Verification development for the rcat directory-concatenation engine.

The Rust sources (glob.rs, gitignore.rs, file_processor.rs, format.rs,
stats.rs, walker.rs, thread_pool.rs) are shallowly embedded below.
Filesystem paths are modelled as lists of (already normalized) components;
the filesystem itself is an environment of oracles (one field per
std::fs primitive the code calls), so that the traversal code can be
translated statement by statement as pure state-passing functions.
-/

/-- A filesystem path, as its list of normalized components
(the model of Rust's `PathBuf`). -/
abbrev FsPath := List String

/-! Structural (kernel-evaluable) equivalents of the string primitives the
Rust code uses; the library versions recurse on byte positions, these
recurse on the character list. -/

/-- Split a character list at every occurrence of `c` (the list of
segments is never empty, matching `str::split`). -/
def splitCharList (c : Char) : List Char → List (List Char)
  | [] => [[]]
  | x :: xs =>
    let r := splitCharList c xs
    if x = c then [] :: r
    else
      match r with
      | [] => [[x]]
      | h :: t => (x :: h) :: t

/-- `str::split` on a one-character separator. -/
def splitOnChar (s : String) (c : Char) : List String :=
  (splitCharList c s.data).map String.mk

/-- `str::contains(char)`. -/
def strContains (s : String) (c : Char) : Bool :=
  s.data.contains c

/-- `str::starts_with(char)` (also used for one-character string prefixes). -/
def startsWithChar (s : String) (c : Char) : Bool :=
  match s.data with
  | [] => false
  | x :: _ => x = c

/-- `str::ends_with(char)`. -/
def endsWithChar (s : String) (c : Char) : Bool :=
  match s.data.getLast? with
  | none => false
  | some x => x = c

/-- `&line[1..]` on a string: drop the first character. -/
def dropFirstChar (s : String) : String :=
  String.mk (s.data.drop 1)

/-- `&line[..line.len() - 1]` on a string: drop the last character. -/
def dropLastChar (s : String) : String :=
  String.mk s.data.dropLast

/-- The whitespace characters `str::trim` removes (ASCII subset). -/
def isWsChar (c : Char) : Bool :=
  c = ' ' ∨ c = '\t' ∨ c = '\n' ∨ c = '\r'

/-- `str::trim`. -/
def trimStr (s : String) : String :=
  String.mk (((s.data.dropWhile isWsChar).reverse.dropWhile isWsChar).reverse)

/-- `Vec::join(sep)` / `String::intercalate`. -/
def strJoinSep (sep : String) : List String → String
  | [] => ""
  | [x] => x
  | x :: xs => x ++ sep ++ strJoinSep sep xs

/-- `str::to_lowercase` (ASCII case folding, which is all the sources rely
on for extensions). -/
def lowerStr (s : String) : String :=
  String.mk (s.data.map Char.toLower)

/-- `str::is_empty`. -/
def strIsEmpty (s : String) : Bool :=
  s.data.isEmpty

/-- `Path::display`, for the relative paths the walker formats into blocks:
components joined with "/". -/
def pathDisplay (p : FsPath) : String :=
  strJoinSep "/" p

/-- `Path::file_name`: the final component (paths are assumed normalized,
so there is no trailing `..` to special-case). -/
def fileName (p : FsPath) : Option String :=
  p.getLast?

/-- `Path::strip_prefix`: drop `base` from the front of `p` componentwise;
`none` models the `Err` case. -/
def stripPref : FsPath → FsPath → Option FsPath
  | [], p => some p
  | _ :: _, [] => none
  | a :: as, b :: bs => if a = b then stripPref as bs else none

/-- `Path::extension` on a file name: the part after the last `.`, none when
there is no `.` or when the only `.` is the leading one of a hidden file. -/
def extOfName (name : String) : Option String :=
  match splitOnChar name '.' with
  | [] => none
  | [_] => none
  | first :: rest =>
    if first = "" ∧ rest.length = 1 then none
    else rest.getLast?

/-- `Path::extension` of a path: the extension of its final component. -/
def pathExtension (p : FsPath) : Option String :=
  match fileName p with
  | none => none
  | some n => extOfName n

/-- Byte-order comparison on strings (`Ord for str`), written structurally
over the character list so that it evaluates in the kernel (equivalent to
the library order for the ASCII paths the examples use). -/
def charListLt : List Char → List Char → Bool
  | [], [] => false
  | [], _ :: _ => true
  | _ :: _, [] => false
  | a :: as, b :: bs => if a < b then true else if a = b then charListLt as bs else false

def strLt (a b : String) : Bool := charListLt a.data b.data

theorem charListLt_irrefl : ∀ l : List Char, charListLt l l = false := by
  intro l
  induction l with
  | nil => rfl
  | cons x xs ih =>
    simp only [charListLt]
    rw [if_neg (lt_irrefl x)]
    simpa using ih

theorem charListLt_trans : ∀ {a b c : List Char},
    charListLt a b = true → charListLt b c = true → charListLt a c = true := by
  intro a
  induction a with
  | nil =>
    intro b c hab hbc
    cases b with
    | nil => simp [charListLt] at hab
    | cons y ys =>
      cases c with
      | nil => simp [charListLt] at hbc
      | cons z zs => rfl
  | cons x xs ih =>
    intro b c hab hbc
    cases b with
    | nil => simp [charListLt] at hab
    | cons y ys =>
      cases c with
      | nil => simp [charListLt] at hbc
      | cons z zs =>
        simp only [charListLt] at hab hbc ⊢
        by_cases hxy : x < y
        · by_cases hyz : y < z
          · rw [if_pos (lt_trans hxy hyz)]
          · rw [if_neg hyz] at hbc
            by_cases hyz' : y = z
            · subst hyz'; rw [if_pos hxy]
            · rw [if_neg hyz'] at hbc; exact absurd hbc (by simp)
        · rw [if_neg hxy] at hab
          by_cases hxy' : x = y
          · subst hxy'
            rw [if_pos rfl] at hab
            by_cases hyz : x < z
            · rw [if_pos hyz]
            · rw [if_neg hyz] at hbc ⊢
              by_cases hyz' : x = z
              · rw [if_pos hyz'] at hbc ⊢
                exact ih hab hbc
              · rw [if_neg hyz'] at hbc; exact absurd hbc (by simp)
          · rw [if_neg hxy'] at hab; exact absurd hab (by simp)

theorem charListLt_total : ∀ a b : List Char,
    charListLt a b = true ∨ a = b ∨ charListLt b a = true := by
  intro a
  induction a with
  | nil =>
    intro b
    cases b with
    | nil => right; left; rfl
    | cons y ys => left; rfl
  | cons x xs ih =>
    intro b
    cases b with
    | nil => right; right; rfl
    | cons y ys =>
      rcases lt_trichotomy x y with h | h | h
      · left; simp only [charListLt]; rw [if_pos h]
      · subst h
        rcases ih ys with h2 | h2 | h2
        · left; simp only [charListLt]; rw [if_neg (lt_irrefl x)]; simpa using h2
        · right; left; rw [h2]
        · right; right; simp only [charListLt]; rw [if_neg (lt_irrefl x)]; simpa using h2
      · right; right; simp only [charListLt]; rw [if_pos h]

theorem strLt_irrefl (a : String) : strLt a a = false := charListLt_irrefl a.data

theorem strLt_trans {a b c : String} (hab : strLt a b = true) (hbc : strLt b c = true) :
    strLt a c = true := charListLt_trans hab hbc

theorem strLt_total (a b : String) : strLt a b = true ∨ a = b ∨ strLt b a = true := by
  rcases charListLt_total a.data b.data with h | h | h
  · left; exact h
  · right; left
    cases a; cases b
    exact congrArg String.mk h
  · right; right; exact h

theorem strLt_asymm {a b : String} (h : strLt a b = true) : strLt b a = false := by
  by_contra hc
  have h2 : strLt b a = true := by
    cases hab : strLt b a
    · exact absurd hab hc
    · rfl
  have := strLt_trans h h2
  rw [strLt_irrefl] at this
  exact Bool.noConfusion this

theorem strLt_ne {a b : String} (h : strLt a b = true) : a ≠ b := by
  intro he
  subst he
  rw [strLt_irrefl] at h
  exact Bool.noConfusion h

theorem strLt_not_self (a : String) : ¬ strLt a a = true := by
  rw [strLt_irrefl]
  exact fun h => Bool.noConfusion h

theorem strLt_not_rev {a b : String} (h : strLt a b = true) : ¬ strLt b a = true := by
  rw [strLt_asymm h]
  exact fun h2 => Bool.noConfusion h2


/-- Componentwise lexicographic order on paths: the order `Ord for PathBuf`
sorts by (Rust `Vec::sort` on `Vec<PathBuf>`). -/
def pathLe : FsPath → FsPath → Bool
  | [], _ => true
  | _ :: _, [] => false
  | a :: as, b :: bs =>
    if strLt a b then true
    else if a = b then pathLe as bs
    else false

/-- The propositional form of `pathLe`, used for the sortedness lemmas. -/
def PathLeP (a b : FsPath) : Prop := pathLe a b = true

instance : DecidableRel PathLeP := fun a b => by
  unfold PathLeP; infer_instance

/-- `Vec::sort` on directory entries (walker.rs line 212): any sort into
`pathLe` order; with antisymmetry the sorted permutation is unique, so
insertion sort is the same function as Rust's stable merge sort. -/
def sortPaths (l : List FsPath) : List FsPath :=
  List.insertionSort PathLeP l

instance : IsTotal FsPath PathLeP := by
  constructor
  intro a b
  induction a generalizing b with
  | nil => left; rfl
  | cons x xs ih =>
    cases b with
    | nil => right; rfl
    | cons y ys =>
      rcases strLt_total x y with h | h | h
      · left; simp only [PathLeP, pathLe]; rw [if_pos h]
      · subst h
        rcases ih ys with h2 | h2
        · left; simp only [PathLeP, pathLe]
          rw [if_neg (strLt_not_self x)]; simpa using h2
        · right; simp only [PathLeP, pathLe]
          rw [if_neg (strLt_not_self x)]; simpa using h2
      · right; simp only [PathLeP, pathLe]; rw [if_pos h]

instance : IsTrans FsPath PathLeP := by
  constructor
  intro a b c hab hbc
  induction a generalizing b c with
  | nil => rfl
  | cons x xs ih =>
    cases b with
    | nil => simp [PathLeP, pathLe] at hab
    | cons y ys =>
      cases c with
      | nil => simp [PathLeP, pathLe] at hbc
      | cons z zs =>
        simp only [PathLeP, pathLe] at hab hbc ⊢
        by_cases hxy : strLt x y = true
        · by_cases hyz : strLt y z = true
          · rw [if_pos (strLt_trans hxy hyz)]
          · rw [if_neg hyz] at hbc
            by_cases hyz' : y = z
            · subst hyz'; rw [if_pos hxy]
            · rw [if_neg hyz'] at hbc; exact absurd hbc (by simp)
        · rw [if_neg hxy] at hab
          by_cases hxy' : x = y
          · subst hxy'
            rw [if_pos rfl] at hab
            by_cases hyz : strLt x z = true
            · rw [if_pos hyz]
            · rw [if_neg hyz] at hbc ⊢
              by_cases hyz' : x = z
              · rw [if_pos hyz'] at hbc ⊢
                exact ih _ _ hab hbc
              · rw [if_neg hyz'] at hbc; exact absurd hbc (by simp)
          · rw [if_neg hxy'] at hab; exact absurd hab (by simp)

instance : IsAntisymm FsPath PathLeP := by
  constructor
  intro a b hab hba
  induction a generalizing b with
  | nil =>
    cases b with
    | nil => rfl
    | cons y ys => simp [PathLeP, pathLe] at hba
  | cons x xs ih =>
    cases b with
    | nil => simp [PathLeP, pathLe] at hab
    | cons y ys =>
      simp only [PathLeP, pathLe] at hab hba
      by_cases hxy : strLt x y = true
      · rw [if_neg (strLt_not_rev hxy)] at hba
        by_cases hyx' : y = x
        · exact absurd hyx'.symm (strLt_ne hxy)
        · rw [if_neg hyx'] at hba; exact absurd hba (by simp)
      · rw [if_neg hxy] at hab
        by_cases hxy' : x = y
        · subst hxy'
          rw [if_pos rfl] at hab hba
          rw [if_neg hxy] at hba
          rw [ih _ hab hba]
        · rw [if_neg hxy'] at hab; exact absurd hab (by simp)

/-! ## GlobMatcher (glob.rs) -/

/-- The two-pointer scan of `GlobMatcher::matches` (glob.rs lines 15-60):
`star` holds `(star_idx, star_match)`, which the source keeps in two
`Option`s that are always set together.  The Rust `while` loop is run on
explicit fuel so that the definition stays structurally recursive (and
kernel-evaluable); fuel bounds the number of iterations.  Each iteration
strictly decreases `(textLen + 1 - star_match) * (patLen + 2) +
(patLen + 1 - pattern_idx)` (using the invariant `star_match <= text_idx`,
which every transition preserves), and that measure starts below
`(textLen + 2) * (patLen + 2)`, the fuel `globMatch` supplies — so the
fuel-exhausted branch is unreachable. -/
def globLoop (fuel : Nat) (text pat : List Char) (tIdx pIdx : Nat)
    (star : Option (Nat × Nat)) : Bool :=
  match fuel with
  | 0 => false
  | f + 1 =>
    if tIdx < text.length then
      if pIdx < pat.length then
        if pat.getD pIdx ' ' = '*' then
          globLoop f text pat tIdx (pIdx + 1) (some (pIdx, tIdx))
        else if pat.getD pIdx ' ' = '?' then
          globLoop f text pat (tIdx + 1) (pIdx + 1) star
        else if pat.getD pIdx ' ' = text.getD tIdx ' ' then
          globLoop f text pat (tIdx + 1) (pIdx + 1) star
        else
          match star with
          | some (sIdx, sMatch) =>
            globLoop f text pat (sMatch + 1) (sIdx + 1) (some (sIdx, sMatch + 1))
          | none => false
      else
        match star with
        | some (sIdx, sMatch) =>
          globLoop f text pat (sMatch + 1) (sIdx + 1) (some (sIdx, sMatch + 1))
        | none => false
    else
      (pat.drop pIdx).all (fun ch => ch = '*')

/-- `GlobMatcher::matches` (glob.rs): `*` matches everything, a wildcard-free
pattern requires equality, otherwise run the backtracking scan.
`GitignoreMatcher::glob_match` (gitignore.rs lines 276-335) is a verbatim
copy of the same function in the source, so it is embedded once here. -/
def globMatch (text pattern : String) : Bool :=
  if pattern = "*" then true
  else if !strContains pattern '*' && !strContains pattern '?' then text == pattern
  else globLoop ((text.length + 2) * (pattern.length + 2)) text.data pattern.data 0 0 none

/-- The control points of `GitignoreMatcher::match_parts`
(gitignore.rs lines 231-273): `parts` is an entry into `match_parts`
itself, `loop` the main `while` loop over both index cursors, and `scan`
the inner `while` loop of the `**` arm that searches for the next matching
path position (its pattern-list argument is the sliced
`pattern_parts[pattern_idx..]`, whose head is `next`). -/
inductive MPCall where
  | parts (startIdx : Nat)
  | loop (pathIdx patternIdx : Nat)
  | scan (pathIdx : Nat)
deriving Repr, DecidableEq

/-- One fueled run of `match_parts` and its loops.  Every recursive call
strictly decreases the lexicographic measure
`(pats.length, tag, cursor-slack)` (the `**` arm recurses on the strictly
shorter `pats.drop (patternIdx + 1)`), each component of which is below
`pathParts.length + pats.length + 2`, so the fuel chosen by `matchParts`
dominates the recursion depth and the fuel-exhausted branch is
unreachable. -/
def mpRun (fuel : Nat) (pathParts pats : List String) (call : MPCall) : Bool :=
  match fuel with
  | 0 => false
  | f + 1 =>
    match call with
    | .parts startIdx =>
      if pats.isEmpty then true
      else mpRun f pathParts pats (.loop startIdx 0)
    | .loop pathIdx patternIdx =>
      if patternIdx < pats.length ∧ pathIdx < pathParts.length then
        if pats.getD patternIdx "" = "**" then
          if patternIdx = pats.length - 1 then true
          else mpRun f pathParts (pats.drop (patternIdx + 1)) (.scan pathIdx)
        else if globMatch (pathParts.getD pathIdx "") (pats.getD patternIdx "") then
          mpRun f pathParts pats (.loop (pathIdx + 1) (patternIdx + 1))
        else false
      else patternIdx == pats.length
    | .scan pathIdx =>
      if pathIdx < pathParts.length then
        if globMatch (pathParts.getD pathIdx "") (pats.getD 0 "") &&
            mpRun f pathParts pats (.parts pathIdx) then true
        else mpRun f pathParts pats (.scan (pathIdx + 1))
      else false

/-- `GitignoreMatcher::match_parts` (gitignore.rs lines 231-273). -/
def matchParts (pathParts patternParts : List String) (startIdx : Nat) : Bool :=
  mpRun ((patternParts.length * 4 + 8) * (pathParts.length + patternParts.length + 2))
    pathParts patternParts (.parts startIdx)

/-- `GitignoreMatcher::matches_pattern` (gitignore.rs lines 199-228). -/
def matchesPattern (path pattern : String) (is_absolute : Bool) : Bool :=
  if pattern = "*" then true
  else
    let patternParts := splitOnChar pattern '/'
    let pathParts := (splitOnChar path '/').filter (fun s => !strIsEmpty s)
    if is_absolute then matchParts pathParts patternParts 0
    else if strContains pattern '/' then matchParts pathParts patternParts 0
    else pathParts.any (fun part => globMatch part pattern)

/-! ## The filesystem environment

The walker's effects bottom out in `std::fs` calls; each call the sources
make is one oracle field.  A concrete `FS` value is one filesystem
snapshot (the walk itself never writes). -/

/-- The filesystem oracles used by walker.rs, gitignore.rs and
file_processor.rs. -/
structure FS where
  /-- `Path::canonicalize`; `none` is the `Err` case (e.g. broken symlink). -/
  canon : FsPath → Option FsPath
  /-- `Path::is_file` (follows symlinks). -/
  isFile : FsPath → Bool
  /-- `Path::is_dir` (follows symlinks). -/
  isDir : FsPath → Bool
  /-- `fs::read_dir`: `Except.error` when the directory cannot be opened;
  inside, a `none` entry is an entry whose `Result` is `Err` (dropped by
  the walker's `filter_map(|e| e.ok())`). -/
  readDir : FsPath → Except Unit (List (Option FsPath))
  /-- `Path::metadata().len()`; `none` when the metadata call fails. -/
  metaLen : FsPath → Option Nat
  /-- `File::open` + one `read` into the 8 KiB buffer (file_processor.rs
  `is_binary`): the bytes the read returned, `none` when open/read fails. -/
  fileBytes : FsPath → Option (List Nat)
  /-- `fs::read_to_string`; `none` when opening/decoding fails. -/
  readToString : FsPath → Option String
  /-- `Path::exists`. -/
  pathExists : FsPath → Bool

/-! ## FileProcessor (file_processor.rs) and ByteFormatter (format.rs) -/

/-- `FileContent` (file_processor.rs lines 9-16). -/
inductive FileContent where
  | text (s : String)
  | binary
  | unreadable
deriving Repr, DecidableEq

/-- `Config::BINARY_CHECK_BUFFER_SIZE` (config.rs). -/
def BINARY_CHECK_BUFFER_SIZE : Nat := 8192

/-- `FileProcessor::is_binary` (file_processor.rs lines 35-47): failure to
open or read yields `false`; otherwise look for a NUL byte in the read
prefix (the buffer is `BINARY_CHECK_BUFFER_SIZE` bytes). -/
def FileProcessor.is_binary (fs : FS) (path : FsPath) : Bool :=
  match fs.fileBytes path with
  | none => false
  | some bytes => (bytes.take BINARY_CHECK_BUFFER_SIZE).contains 0

/-- `FileProcessor::process` (file_processor.rs lines 23-32). -/
def FileProcessor.process (fs : FS) (path : FsPath) : FileContent :=
  if FileProcessor.is_binary fs path then .binary
  else
    match fs.readToString path with
    | some content => .text content
    | none => .unreadable

/-- `FileProcessor::format_content` (file_processor.rs lines 50-57). -/
def FileProcessor.format_content (path : FsPath) (content : FileContent) : Option String :=
  match content with
  | .text text => some ("--- " ++ pathDisplay path ++ " ---\n" ++ text)
  | .binary => some ("--- " ++ pathDisplay path ++ " ---\n<BINARY_FILE>")
  | .unreadable => none

/-- Round `num / den` to the nearest integer, ties to even (the rounding of
Rust's float formatting, here on exact rationals). -/
def roundHalfEven (num den : Nat) : Nat :=
  let q := num / den
  let r := num % den
  if 2 * r > den then q + 1
  else if 2 * r < den then q
  else if q % 2 = 1 then q + 1 else q

/-- Left-pad a digit string with zeros to `width`. -/
def padZeros (s : String) (width : Nat) : String :=
  String.mk (List.replicate (width - s.length) '0') ++ s

/-- `format!("{:.N}", num/den)` on exact rationals. -/
def fmtFixed (num den decimals : Nat) : String :=
  let scaled := roundHalfEven (num * 10 ^ decimals) den
  if decimals = 0 then toString scaled
  else toString (scaled / 10 ^ decimals) ++ "." ++
    padZeros (toString (scaled % 10 ^ decimals)) decimals

/-- The `while size >= 1024 && unit_index < UNITS.len() - 1` loop of
`ByteFormatter::format`: how many times 1024 divides in. -/
def unitIndex (bytes : Nat) : Nat :=
  if bytes ≥ 1024 ^ 4 then 4
  else if bytes ≥ 1024 ^ 3 then 3
  else if bytes ≥ 1024 ^ 2 then 2
  else if bytes ≥ 1024 then 1
  else 0

/-- The unit names of `ByteFormatter::format`. -/
def unitName (u : Nat) : String :=
  ["B", "KB", "MB", "GB", "TB"].getD u "B"

/-- `ByteFormatter::format` (format.rs lines 6-36), with the `f64`
arithmetic of the source carried out exactly: `size.fract() == 0.0` is
exact divisibility, and the precision thresholds compare the exact
quotient. -/
def ByteFormatter.format (bytes : Nat) : String :=
  if bytes = 0 then "0 B"
  else
    let u := unitIndex bytes
    let den := 1024 ^ u
    let unit := unitName u
    if bytes % den = 0 then toString (bytes / den) ++ " " ++ unit
    else if bytes < 10 * den then fmtFixed bytes den 2 ++ " " ++ unit
    else if bytes < 100 * den then fmtFixed bytes den 1 ++ " " ++ unit
    else fmtFixed bytes den 0 ++ " " ++ unit

/-- `ByteFormatter::format_as_unit` (format.rs lines 39-53). -/
def ByteFormatter.format_as_unit (bytes : Nat) : String :=
  if bytes ≥ 1024 ^ 3 ∧ bytes % 1024 ^ 3 = 0 then toString (bytes / 1024 ^ 3) ++ "GB"
  else if bytes ≥ 1024 ^ 2 ∧ bytes % 1024 ^ 2 = 0 then toString (bytes / 1024 ^ 2) ++ "MB"
  else if bytes ≥ 1024 ∧ bytes % 1024 = 0 then toString (bytes / 1024) ++ "KB"
  else toString bytes ++ " bytes"

/-! ## Gitignore matching (gitignore.rs) -/

/-- `Pattern` (gitignore.rs lines 111-116). -/
structure Pattern where
  pattern : String
  is_negation : Bool
  is_directory_only : Bool
  is_absolute : Bool
deriving Repr, DecidableEq

/-- `GitignoreMatcher::parse_gitignore` (gitignore.rs lines 160-196).
`str::lines` is modelled as splitting on a newline: the possible extra
empty fragment and any `\r` are removed by the same trim/skip the source
applies to every line. -/
def parse_gitignore (content : String) : List Pattern :=
  (splitOnChar content '\n').filterMap fun line =>
    let line := trimStr line
    if strIsEmpty line || startsWithChar line '#' then none
    else
      let is_negation := startsWithChar line '!'
      let line := if is_negation then dropFirstChar line else line
      let is_directory_only := endsWithChar line '/'
      let line := if is_directory_only then dropLastChar line else line
      let is_absolute := startsWithChar line '/'
      let pattern := if is_absolute then dropFirstChar line else line
      some ⟨pattern, is_negation, is_directory_only, is_absolute⟩

/-- `GitignoreMatcher` (gitignore.rs lines 106-109). -/
structure GitignoreMatcher where
  patterns : List Pattern
  base_path : FsPath
deriving Repr, DecidableEq

/-- `GitignoreMatcher::new` (gitignore.rs lines 120-126). -/
def GitignoreMatcher.new (content : String) (base_path : FsPath) : GitignoreMatcher :=
  ⟨parse_gitignore content, base_path⟩

/-- `GitignoreMatcher::should_ignore` (gitignore.rs lines 129-157): compute
the path relative to the base (not under the base, or the base itself,
means not ignored), then scan every pattern in file order keeping a
running `ignored` flag — a matching pattern overwrites the flag with the
negation of its `is_negation`, so the last match wins and no match
short-circuits. -/
def GitignoreMatcher.should_ignore (fs : FS) (m : GitignoreMatcher) (path : FsPath) : Bool :=
  match stripPref m.base_path path with
  | none => false
  | some rel =>
    if rel.isEmpty then false
    else
      let path_str := strJoinSep "/" rel
      let is_dir := fs.isDir path
      m.patterns.foldl
        (fun ignored pat =>
          if pat.is_directory_only && !is_dir then ignored
          else if matchesPattern path_str pat.pattern pat.is_absolute then !pat.is_negation
          else ignored)
        false

/-- `GitignoreManager` — the state behind its `Arc<Mutex<..>>`
(gitignore.rs lines 12-19); the matcher map is an association list. -/
structure GitignoreManager where
  matchers : List (FsPath × GitignoreMatcher)
  active_gitignores : List FsPath
  root_path : FsPath
deriving Repr, DecidableEq

/-- `HashMap::get` on the matcher map. -/
def lookupMatcher (ms : List (FsPath × GitignoreMatcher)) (k : FsPath) : Option GitignoreMatcher :=
  match ms.find? (fun e => e.1 == k) with
  | some e => some e.2
  | none => none

/-- `GitignoreManager::new` (gitignore.rs lines 23-43): register a matcher
at the root when `root/.gitignore` exists and reads. -/
def GitignoreManager.new (fs : FS) (root_path : FsPath) : GitignoreManager :=
  let gitignore_path := root_path ++ [".gitignore"]
  if fs.pathExists gitignore_path then
    match fs.readToString gitignore_path with
    | some content =>
      ⟨[(root_path, GitignoreMatcher.new content root_path)], [gitignore_path], root_path⟩
    | none => ⟨[], [], root_path⟩
  else ⟨[], [], root_path⟩

/-- `GitignoreManager::check_directory` (gitignore.rs lines 46-60). -/
def GitignoreManager.check_directory (fs : FS) (m : GitignoreManager) (dir_path : FsPath) :
    GitignoreManager :=
  let gitignore_path := dir_path ++ [".gitignore"]
  if fs.pathExists gitignore_path then
    if (lookupMatcher m.matchers dir_path).isNone then
      match fs.readToString gitignore_path with
      | some content =>
        { m with
          matchers := m.matchers ++ [(dir_path, GitignoreMatcher.new content dir_path)],
          active_gitignores := m.active_gitignores ++ [gitignore_path] }
      | none => m
    else m
  else m

/-- The `for component in relative.components()` loop of
`GitignoreManager::should_ignore` (gitignore.rs lines 78-89): push each
component onto `current_path` and return true at the first registered
matcher that ignores the path. -/
def consultLoop (fs : FS) (matchers : List (FsPath × GitignoreMatcher))
    (current : FsPath) (rel : List String) (path : FsPath) : Bool :=
  match rel with
  | [] => false
  | comp :: rest =>
    let current' := current ++ [comp]
    match lookupMatcher matchers current' with
    | some matcher =>
      if matcher.should_ignore fs path then true
      else consultLoop fs matchers current' rest path
    | none => consultLoop fs matchers current' rest path

/-- `GitignoreManager::should_ignore` (gitignore.rs lines 63-92): the root
matcher first, then each directory from the root toward the path. -/
def GitignoreManager.should_ignore (fs : FS) (m : GitignoreManager) (path : FsPath) : Bool :=
  let rootHit :=
    match lookupMatcher m.matchers m.root_path with
    | some matcher => matcher.should_ignore fs path
    | none => false
  if rootHit then true
  else
    match stripPref m.root_path path with
    | some rel => consultLoop fs m.matchers m.root_path rel path
    | none => false

/-- `GitignoreManager::active_gitignores` (gitignore.rs lines 95-97). -/
def GitignoreManager.active (m : GitignoreManager) : List FsPath :=
  m.active_gitignores

/-- `GitignoreManager::has_active_gitignores` (gitignore.rs lines 100-102). -/
def GitignoreManager.has_active (m : GitignoreManager) : Bool :=
  !m.active_gitignores.isEmpty

/-! ## StatsCollector (stats.rs) -/

/-- The counters of `Stats` (stats.rs lines 13-27).  The extension map is
an association list in first-insertion order (content-equal to the
source's `HashMap`).  `skipped_large_files` backs
`record_skipped_large_file`, which walker.rs line 283 calls but whose body
is missing from the provided stats.rs; modelled from the spec:
"increments the large-file-skip counter exactly once". -/
structure Stats where
  files_processed : Nat
  directories_processed : Nat
  binary_files : Nat
  text_files : Nat
  unreadable_files : Nat
  skipped_files : Nat
  skipped_directories : Nat
  gitignored_files : Nat
  gitignored_directories : Nat
  skipped_large_files : Nat
  gitignore_files : List FsPath
  extensions : List (String × Nat)
  total_bytes : Nat
deriving Repr, DecidableEq

/-- All counters zero (`StatsCollector::new`, stats.rs lines 31-48). -/
def Stats.new : Stats :=
  ⟨0, 0, 0, 0, 0, 0, 0, 0, 0, 0, [], [], 0⟩

/-- `*stats.extensions.entry(ext).or_insert(0) += 1`. -/
def bumpExt : List (String × Nat) → String → List (String × Nat)
  | [], k => [(k, 1)]
  | (a, b) :: rest, k => if a = k then (a, b + 1) :: rest else (a, b) :: bumpExt rest k

/-- The shared `if let Some(ext) = path.extension()` bookkeeping of
`record_text_file` / `record_binary_file`. -/
def Stats.recordExtension (s : Stats) (path : FsPath) : Stats :=
  match pathExtension path with
  | some ext => { s with extensions := bumpExt s.extensions (lowerStr ext) }
  | none => s

/-- `StatsCollector::record_text_file` (stats.rs lines 51-61). -/
def Stats.record_text_file (s : Stats) (path : FsPath) (size : Nat) : Stats :=
  Stats.recordExtension
    { s with
      files_processed := s.files_processed + 1
      text_files := s.text_files + 1
      total_bytes := s.total_bytes + size }
    path

/-- `StatsCollector::record_binary_file` (stats.rs lines 64-73). -/
def Stats.record_binary_file (s : Stats) (path : FsPath) : Stats :=
  Stats.recordExtension
    { s with
      files_processed := s.files_processed + 1
      binary_files := s.binary_files + 1 }
    path

/-- `StatsCollector::record_unreadable_file` (stats.rs lines 76-80). -/
def Stats.record_unreadable_file (s : Stats) : Stats :=
  { s with
    files_processed := s.files_processed + 1
    unreadable_files := s.unreadable_files + 1 }

/-- `StatsCollector::record_directory` (stats.rs lines 83-86). -/
def Stats.record_directory (s : Stats) : Stats :=
  { s with directories_processed := s.directories_processed + 1 }

/-- `StatsCollector::record_skipped_file` (stats.rs lines 89-92). -/
def Stats.record_skipped_file (s : Stats) : Stats :=
  { s with skipped_files := s.skipped_files + 1 }

/-- `StatsCollector::record_skipped_directory` (stats.rs lines 95-98). -/
def Stats.record_skipped_directory (s : Stats) : Stats :=
  { s with skipped_directories := s.skipped_directories + 1 }

/-- `StatsCollector::record_gitignored_file` (stats.rs lines 101-104). -/
def Stats.record_gitignored_file (s : Stats) : Stats :=
  { s with gitignored_files := s.gitignored_files + 1 }

/-- `StatsCollector::record_gitignored_directory` (stats.rs lines 107-110). -/
def Stats.record_gitignored_directory (s : Stats) : Stats :=
  { s with gitignored_directories := s.gitignored_directories + 1 }

/-- `record_skipped_large_file` (called at walker.rs line 283; modelled
from the spec: the large-file-skip counter increments by one). -/
def Stats.record_skipped_large_file (s : Stats) : Stats :=
  { s with skipped_large_files := s.skipped_large_files + 1 }

/-- `StatsCollector::set_gitignore_active` (stats.rs lines 113-116):
replaces the list. -/
def Stats.set_gitignore_active (s : Stats) (gitignore_files : List FsPath) : Stats :=
  { s with gitignore_files := gitignore_files }

/-- `StatsCollector` (stats.rs lines 8-11): the counters plus the creation
instant (`Instant::now()` at `StatsCollector::new`, modelled as the clock
reading `start_time`). -/
structure StatsCollector where
  stats : Stats
  start_time : Nat
deriving Repr, DecidableEq

/-- `StatsCollector::elapsed` (stats.rs lines 119-122): wall time since
the collector was created, read at clock value `now`. -/
def StatsCollector.elapsed (c : StatsCollector) (now : Nat) : Nat :=
  now - c.start_time

/-! ## Walker (walker.rs) -/

/-- `WalkOptions` (walker.rs lines 13-18): its three fields.  (The provided
walker.rs has no exclude-pattern field, although main.rs line 237
constructs `WalkOptions` with one.) -/
structure WalkOptions where
  include_all : Bool
  max_size : Nat
  max_file_size : Nat
deriving Repr, DecidableEq

/-- `WalkResult` (walker.rs lines 31-35). -/
structure WalkResult where
  content : String
  stats : StatsCollector
  truncated : Bool
deriving Repr, DecidableEq

/-- `DirectoryWalker` (walker.rs lines 49-58); the visited `HashSet` is a
membership list.  The clock reading captured by `StatsCollector::new`
inside `DirectoryWalker::new` is never read during traversal, so it is
kept out of the traversal state and supplied to the result assembly
(`DirectoryWalker.walk`) as `now`. -/
structure DirectoryWalker where
  contents : List String
  total_size : Nat
  truncated : Bool
  stats : Stats
  options : WalkOptions
  gitignore_managers : List GitignoreManager
  root_paths : List FsPath
  visited_paths : List FsPath
deriving Repr, DecidableEq

/-- `DirectoryWalker::new` (walker.rs lines 62-73). -/
def DirectoryWalker.new (options : WalkOptions) : DirectoryWalker :=
  ⟨[], 0, false, Stats.new, options, [], [], []⟩

/-- `DirectoryWalker::add_root` (walker.rs lines 76-88). -/
def DirectoryWalker.add_root (fs : FS) (w : DirectoryWalker) (path : FsPath) : DirectoryWalker :=
  let gitignore := GitignoreManager.new fs path
  let stats :=
    if gitignore.has_active then w.stats.set_gitignore_active gitignore.active
    else w.stats
  { w with
    root_paths := w.root_paths ++ [path]
    stats := stats
    gitignore_managers := w.gitignore_managers ++ [gitignore] }

/-- The truncation marker block of `process_file`
(walker.rs lines 297-302 and 321-326). -/
def truncationMarker (max_size total_size would : Nat) : String :=
  "\n--- TRUNCATED: Size limit of " ++ ByteFormatter.format_as_unit max_size ++
    " reached ---\n--- " ++ ByteFormatter.format total_size ++ " collected, " ++
    ByteFormatter.format would ++ " would exceed limit ---"

/-- `DirectoryWalker::process_file` (walker.rs lines 276-341).  Block sizes
(`formatted.len()`, bytes in the source) are character counts here; the
two agree on ASCII content. -/
def process_file (fs : FS) (w : DirectoryWalker) (path : FsPath) : DirectoryWalker :=
  let sizeSkip :=
    match fs.metaLen path with
    | some file_size => decide (file_size > w.options.max_file_size)
    | none => false
  if sizeSkip then { w with stats := w.stats.record_skipped_large_file }
  else
    let content := FileProcessor.process fs path
    match content with
    | .text _ =>
      match FileProcessor.format_content path content with
      | some formatted =>
        let size := formatted.length
        if w.total_size + size > w.options.max_size then
          { w with
            contents :=
              w.contents ++ [truncationMarker w.options.max_size w.total_size (w.total_size + size)]
            truncated := true }
        else
          { w with
            total_size := w.total_size + size
            stats := w.stats.record_text_file path size
            contents := w.contents ++ [formatted] }
      | none => w
    | .binary =>
      let w := { w with stats := w.stats.record_binary_file path }
      if w.options.include_all then
        match FileProcessor.format_content path content with
        | some formatted =>
          let size := formatted.length
          if w.total_size + size > w.options.max_size then
            { w with
              contents :=
                w.contents ++
                  [truncationMarker w.options.max_size w.total_size (w.total_size + size)]
              truncated := true }
          else
            { w with
              total_size := w.total_size + size
              contents := w.contents ++ [formatted] }
        | none => w
      else w
    | .unreadable => { w with stats := w.stats.record_unreadable_file }

/-- `path.file_name()` ends up with a name starting with `'.'`
(the hidden-entry test of walker.rs lines 159-163, 171-175 and 259-262). -/
def isHiddenName (path : FsPath) : Bool :=
  match fileName path with
  | some n => startsWithChar n '.'
  | none => false

/-- `DirectoryWalker::should_process` (walker.rs lines 244-273); the stats
recording of the source goes through the collector's interior mutability,
so the embedded version returns the updated counters. -/
def should_process (fs : FS) (include_all : Bool) (managers : List GitignoreManager)
    (stats : Stats) (path : FsPath) : Bool × Stats :=
  if !include_all then
    if managers.any (fun g => g.should_ignore fs path) then
      let stats :=
        if fs.isFile path then stats.record_gitignored_file
        else if fs.isDir path then stats.record_gitignored_directory
        else stats
      (false, stats)
    else if isHiddenName path then
      let stats :=
        if fs.isFile path then stats.record_skipped_file
        else if fs.isDir path then stats.record_skipped_directory
        else stats
      (false, stats)
    else (true, stats)
  else (true, stats)

/-- walker.rs lines 205-212 as one step: `fs::read_dir(path)?`, drop the
per-entry `Err`s (`filter_map(|e| e.ok())`), collect and sort. -/
def dirEntriesSorted (fs : FS) (path : FsPath) : Except Unit (List FsPath) :=
  match fs.readDir path with
  | .error e => .error e
  | .ok raw => .ok (sortPaths (raw.filterMap id))

/-- The partition loop of `process_directory_bfs`
(walker.rs lines 215-229). -/
def partitionEntries (fs : FS) (include_all : Bool) (managers : List GitignoreManager)
    (entries : List FsPath) (stats : Stats) : List FsPath × List FsPath × Stats :=
  entries.foldl
    (fun acc e =>
      let (filesAcc, subdirsAcc, st) := acc
      let (ok, st') := should_process fs include_all managers st e
      if !ok then (filesAcc, subdirsAcc, st')
      else if fs.isFile e then (filesAcc ++ [e], subdirsAcc, st')
      else if fs.isDir e then (filesAcc, subdirsAcc ++ [e], st')
      else (filesAcc, subdirsAcc, st'))
    ([], [], stats)

/-- The `for file in files` loop of `process_directory_bfs`
(walker.rs lines 232-237): break on truncation, else process the file. -/
def processFilesLoop (fs : FS) : DirectoryWalker → List FsPath → DirectoryWalker
  | w, [] => w
  | w, f :: rest =>
    if w.truncated then w
    else processFilesLoop fs (process_file fs w f) rest

/-- The `for gitignore in &self.gitignore_managers` loop of
`process_directory_bfs` (walker.rs lines 195-203): let each manager check
the directory, updating the active-gitignore stats after each. -/
def checkManagers (fs : FS) (path : FsPath) (managers : List GitignoreManager)
    (stats : Stats) : List GitignoreManager × Stats :=
  managers.foldl
    (fun acc g =>
      let g' := GitignoreManager.check_directory fs g path
      let stats' :=
        if g'.has_active then acc.2.set_gitignore_active g'.active
        else acc.2
      (acc.1 ++ [g'], stats'))
    ([], stats)

/-- `DirectoryWalker::process_directory_bfs` (walker.rs lines 186-241). -/
def process_directory_bfs (fs : FS) (w : DirectoryWalker) (path : FsPath) :
    Except Unit (DirectoryWalker × List FsPath) :=
  if w.truncated then .ok (w, [])
  else
    let w := { w with stats := w.stats.record_directory }
    let (managers, stats) := checkManagers fs path w.gitignore_managers w.stats
    let w := { w with gitignore_managers := managers, stats := stats }
    match dirEntriesSorted fs path with
    | .error e => .error e
    | .ok all_entries =>
      let (files, subdirs, stats) :=
        partitionEntries fs w.options.include_all w.gitignore_managers all_entries w.stats
      let w := { w with stats := stats }
      let w := processFilesLoop fs w files
      .ok (w, subdirs)

/-- `DirectoryWalker::process_path_bfs` (walker.rs lines 123-183). -/
def process_path_bfs (fs : FS) (w : DirectoryWalker) (path : FsPath) :
    Except Unit (DirectoryWalker × List FsPath) :=
  if w.truncated then .ok (w, [])
  else
    match fs.canon path with
    | none => .ok (w, [])
    | some canonical =>
      if w.visited_paths.contains canonical then .ok (w, [])
      else
        let w := { w with visited_paths := canonical :: w.visited_paths }
        if !w.options.include_all &&
            w.gitignore_managers.any (fun g => g.should_ignore fs path) then
          let stats :=
            if fs.isFile path then w.stats.record_gitignored_file
            else if fs.isDir path then w.stats.record_gitignored_directory
            else w.stats
          .ok ({ w with stats := stats }, [])
        else if fs.isFile path then
          if !w.options.include_all && isHiddenName path then
            .ok ({ w with stats := w.stats.record_skipped_file }, [])
          else .ok (process_file fs w path, [])
        else if fs.isDir path then
          if !w.options.include_all && isHiddenName path then
            .ok ({ w with stats := w.stats.record_skipped_directory }, [])
          else process_directory_bfs fs w path
        else .ok (w, [])

/-- The BFS queue loop of `DirectoryWalker::walk` (walker.rs lines 91-113),
on fuel: `none` means the fuel ran out with the queue still busy (a real
walk's queue is finite, so enough fuel always exists). -/
def walkLoop (fs : FS) : Nat → DirectoryWalker → List FsPath →
    Option (Except Unit DirectoryWalker)
  | _, w, [] => some (.ok w)
  | fuel, w, path :: rest =>
    if w.truncated then some (.ok w)
    else
      match fuel with
      | 0 => none
      | f + 1 =>
        match process_path_bfs fs w path with
        | .error e => some (.error e)
        | .ok (w', subdirs) => walkLoop fs f w' (rest ++ subdirs)

/-- `DirectoryWalker::walk` seeded with the roots, stopping at the final
walker state (used by the block-level theorems). -/
def walkW (fs : FS) (fuel : Nat) (w : DirectoryWalker) :
    Option (Except Unit DirectoryWalker) :=
  walkLoop fs fuel w w.root_paths

/-- The result assembly of `DirectoryWalker::walk` (walker.rs lines
115-119): blocks joined with a single `"\n"`; `now` is the clock reading
`Instant::now()` captured when the walker (and its `StatsCollector`) was
created, carried verbatim into the returned collector. -/
def DirectoryWalker.walk (fs : FS) (fuel now : Nat) (w : DirectoryWalker) :
    Option (Except Unit WalkResult) :=
  match walkW fs fuel w with
  | none => none
  | some (.error e) => some (.error e)
  | some (.ok w') =>
    some (.ok ⟨strJoinSep "\n" w'.contents, ⟨w'.stats, now⟩, w'.truncated⟩)

/-- The initial walker of `walk_and_collect` (walker.rs lines 38-46):
`DirectoryWalker::new` then `add_root` for every supplied path. -/
def initialWalker (fs : FS) (paths : List FsPath) (options : WalkOptions) :
    DirectoryWalker :=
  paths.foldl (fun w p => DirectoryWalker.add_root fs w p) (DirectoryWalker.new options)

/-- `walk_and_collect` (walker.rs lines 38-46): `now` is the clock reading
at `StatsCollector::new`, `fuel` bounds the BFS loop. -/
def walk_and_collect (fs : FS) (fuel now : Nat) (paths : List FsPath)
    (options : WalkOptions) : Option (Except Unit WalkResult) :=
  DirectoryWalker.walk fs fuel now (initialWalker fs paths options)

/-- `walk_and_collect`, stopping at the final walker state (which the
creation instant never enters). -/
def walk_and_collectW (fs : FS) (fuel : Nat) (paths : List FsPath)
    (options : WalkOptions) : Option (Except Unit DirectoryWalker) :=
  walkW fs fuel (initialWalker fs paths options)

/-! ## SharedWorkQueue (thread_pool.rs) -/

/-- `WorkQueue` (thread_pool.rs lines 6-10): the state under the mutex. -/
structure WorkQueue where
  queue : List FsPath
  active_tasks : Nat
  shutdown : Bool
deriving Repr, DecidableEq

/-- What one holding-the-lock round of `SharedWorkQueue::pop` observes:
an item, "no more work" (`None` in the source), or "must block on the
condition variable and retry". -/
inductive PopResult where
  | got (p : FsPath)
  | noWork
  | wait
deriving Repr, DecidableEq

/-- `SharedWorkQueue::new` (thread_pool.rs lines 18-30). -/
def WorkQueue.new : WorkQueue := ⟨[], 0, false⟩

/-- `SharedWorkQueue::push_initial` (thread_pool.rs lines 33-38):
enqueue and set (not increment) the active counter to 1. -/
def WorkQueue.push_initial (s : WorkQueue) (path : FsPath) : WorkQueue :=
  { s with queue := s.queue ++ [path], active_tasks := 1 }

/-- One iteration of the `loop` in `SharedWorkQueue::pop`
(thread_pool.rs lines 41-67), evaluated under the lock: shutdown first,
then the queue, then the natural-shutdown transition, else wait. -/
def WorkQueue.popStep (s : WorkQueue) : PopResult × WorkQueue :=
  if s.shutdown then (.noWork, s)
  else
    match s.queue with
    | p :: rest => (.got p, { s with queue := rest })
    | [] =>
      if s.active_tasks = 0 then (.noWork, { s with shutdown := true })
      else (.wait, s)

/-- `SharedWorkQueue::extend` (thread_pool.rs lines 70-93). -/
def WorkQueue.extend (s : WorkQueue) (paths : List FsPath) : WorkQueue :=
  if paths.isEmpty then s
  else if s.shutdown then s
  else { s with queue := s.queue ++ paths, active_tasks := s.active_tasks + paths.length }

/-- `SharedWorkQueue::complete_task` (thread_pool.rs lines 96-104):
`saturating_sub` is Nat subtraction. -/
def WorkQueue.complete_task (s : WorkQueue) : WorkQueue :=
  { s with active_tasks := s.active_tasks - 1 }

/-- `SharedWorkQueue::shutdown` (thread_pool.rs lines 107-112): the forced
shutdown used when the aggregate size cap is reached. -/
def WorkQueue.force_shutdown (s : WorkQueue) : WorkQueue :=
  { s with shutdown := true }

/-- `SharedWorkQueue::is_shutdown` (thread_pool.rs lines 115-119). -/
def WorkQueue.is_shutdown (s : WorkQueue) : Bool := s.shutdown

/-- The operations any thread can run on the shared queue state. -/
inductive QOp where
  | pop
  | ext (paths : List FsPath)
  | complete
  | force
  | pushInit (p : FsPath)
deriving Repr, DecidableEq

/-- One operation applied to the locked state. -/
def qStep (s : WorkQueue) : QOp → WorkQueue
  | .pop => s.popStep.2
  | .ext ps => s.extend ps
  | .complete => s.complete_task
  | .force => s.force_shutdown
  | .pushInit p => s.push_initial p

/-! ## Definitions used to state the claims -/

/-- Modelled from the spec: "Result: `{ content: blocksJoinedByBlankLine,
… }`" — the emitted blocks joined by a blank line, i.e. an empty line
between adjacent blocks. -/
def blocksJoinedByBlankLine (blocks : List String) : String :=
  strJoinSep "\n\n" blocks

/-- The directories `GitignoreManager::should_ignore` steps through after
the root: every extension of `root` by a prefix of `rel`, in root-to-leaf
order. -/
def ancestorsFrom (root : FsPath) : List String → List FsPath
  | [] => []
  | c :: rest => (root ++ [c]) :: ancestorsFrom (root ++ [c]) rest

/-- The directories the manager consults for `path`, in consultation
order: the root first, then each directory from the root toward `path`. -/
def consultedDirs (m : GitignoreManager) (path : FsPath) : List FsPath :=
  m.root_path ::
    (match stripPref m.root_path path with
     | some rel => ancestorsFrom m.root_path rel
     | none => [])

/-- The matchers registered at the consulted directories, in root-to-leaf
consultation order. -/
def consultedMatchers (m : GitignoreManager) (path : FsPath) : List GitignoreMatcher :=
  (consultedDirs m path).filterMap (lookupMatcher m.matchers)

/-- The patterns `GitignoreMatcher::should_ignore` does not skip: every
pattern except the directory-only ones when the target is not a
directory. -/
def applicablePats (isdir : Bool) (pats : List Pattern) : List Pattern :=
  pats.filter (fun pat => !(pat.is_directory_only && !isdir))

/-- The applicable patterns that match the relative path. -/
def matchingPats (path_str : String) (isdir : Bool) (pats : List Pattern) : List Pattern :=
  (applicablePats isdir pats).filter
    (fun pat => matchesPattern path_str pat.pattern pat.is_absolute)

/-- Last match wins: the verdict of the last matching applicable pattern
(`!negated`), false when nothing matches. -/
def lastMatchVerdict (path_str : String) (isdir : Bool) (pats : List Pattern) : Bool :=
  match (matchingPats path_str isdir pats).getLast? with
  | some pat => !pat.is_negation
  | none => false

/-- A block is the truncation marker exactly when it begins with a
newline: `truncationMarker` starts with `'\n'` and every
`format_content` block starts with `"--- "`. -/
def isMarkerBlock (s : String) : Bool :=
  match s.data with
  | [] => false
  | ch :: _ => ch = '\n'

/-- Total length of a list of blocks. -/
def sumLens (l : List String) : Nat :=
  (l.map String.length).sum

/-- Two `read_dir` results that enumerate the same entries, possibly in a
different raw order (both fail, or both succeed with permuted entry
lists). -/
def readDirRel : Except Unit (List (Option FsPath)) → Except Unit (List (Option FsPath)) → Prop
  | .error _, .error _ => True
  | .ok l1, .ok l2 => l1.Perm l2
  | _, _ => False

/-! ## Concrete filesystem snapshots for the witnesses and counterexamples -/

/-- A root directory `d` that exists but whose entries cannot be read
(permission denied on `read_dir`). -/
def fsUnreadableDir : FS where
  canon p := if p = ["d"] then some ["d"] else none
  isFile _ := false
  isDir p := p == ["d"]
  readDir _ := .error ()
  metaLen _ := none
  fileBytes _ := none
  readToString _ := none
  pathExists _ := false

/-- A root directory `d` holding one text file `a.txt` with content
`"hello"`; no ignore files anywhere. -/
def fsOneTxt : FS where
  canon p :=
    if p = ["d"] then some ["d"]
    else if p = ["d", "a.txt"] then some ["d", "a.txt"]
    else none
  isFile p := p == ["d", "a.txt"]
  isDir p := p == ["d"]
  readDir p := if p == ["d"] then .ok [some ["d", "a.txt"]] else .error ()
  metaLen p := if p == ["d", "a.txt"] then some 5 else none
  fileBytes _ := none
  readToString p := if p == ["d", "a.txt"] then some "hello" else none
  pathExists _ := false

/-- A root directory `d` holding `original.txt` (content
`"orig_content"`) and a symlink `link.txt` to it: both direntries are
regular files whose canonical form is `d/original.txt`. -/
def fsSymlinkTwin : FS where
  canon p :=
    if p = ["d"] then some ["d"]
    else if p = ["d", "link.txt"] then some ["d", "original.txt"]
    else if p = ["d", "original.txt"] then some ["d", "original.txt"]
    else none
  isFile p := p == ["d", "link.txt"] || p == ["d", "original.txt"]
  isDir p := p == ["d"]
  readDir p :=
    if p == ["d"] then .ok [some ["d", "link.txt"], some ["d", "original.txt"]]
    else .error ()
  metaLen p := if p == ["d"] then none else some 12
  fileBytes _ := none
  readToString p :=
    if p == ["d", "link.txt"] || p == ["d", "original.txt"] then some "orig_content"
    else none
  pathExists _ := false

/-- A root directory `d` with three one-byte text files `a`, `b`, `c`
(each block is 13 characters long). -/
def fsThreeFiles : FS where
  canon p :=
    if p = ["d"] ∨ p = ["d", "a"] ∨ p = ["d", "b"] ∨ p = ["d", "c"] then some p
    else none
  isFile p := p == ["d", "a"] || p == ["d", "b"] || p == ["d", "c"]
  isDir p := p == ["d"]
  readDir p :=
    if p == ["d"] then .ok [some ["d", "a"], some ["d", "b"], some ["d", "c"]]
    else .error ()
  metaLen p := if p == ["d"] then none else some 1
  fileBytes _ := none
  readToString p :=
    if p == ["d", "a"] || p == ["d", "b"] || p == ["d", "c"] then some "x"
    else none
  pathExists _ := false

/-- A root directory `d` with text files `a` (content `"A"`) and `b`
(content `"B"`), neither ending in a newline. -/
def fsTwoFiles : FS where
  canon p :=
    if p = ["d"] ∨ p = ["d", "a"] ∨ p = ["d", "b"] then some p
    else none
  isFile p := p == ["d", "a"] || p == ["d", "b"]
  isDir p := p == ["d"]
  readDir p :=
    if p == ["d"] then .ok [some ["d", "a"], some ["d", "b"]]
    else .error ()
  metaLen p := if p == ["d"] then none else some 1
  fileBytes _ := none
  readToString p :=
    if p == ["d", "a"] then some "A"
    else if p == ["d", "b"] then some "B"
    else none
  pathExists _ := false

/-- `fsTwoFiles` as the kernel would enumerate it in the opposite raw
order: the same snapshot with `read_dir` returning `b` before `a`. -/
def fsTwoFilesRev : FS :=
  { fsTwoFiles with
    readDir := fun p =>
      if p == ["d"] then .ok [some ["d", "b"], some ["d", "a"]]
      else .error () }

/-- A single hidden root: the file `.env` (content `"secret"`). -/
def fsHiddenRoot : FS where
  canon p := if p = [".env"] then some [".env"] else none
  isFile p := p == [".env"]
  isDir _ := false
  readDir _ := .error ()
  metaLen p := if p == [".env"] then some 6 else none
  fileBytes _ := none
  readToString p := if p == [".env"] then some "secret" else none
  pathExists _ := false

/-- A filesystem where `r/sub/f.txt` is a file under the directories `r`
and `r/sub` (used by the hierarchical-ignore witness). -/
def fsNested : FS where
  canon p := some p
  isFile p := p == ["r", "sub", "f.txt"]
  isDir p := p == ["r"] || p == ["r", "sub"]
  readDir _ := .error ()
  metaLen _ := none
  fileBytes _ := none
  readToString _ := none
  pathExists _ := false

/-- The options every concrete walk here uses unless stated otherwise:
defaults except for a small aggregate cap where truncation is the point. -/
def optsPlain : WalkOptions := ⟨false, 1000000, 1000000⟩

/-- Options with the aggregate cap at 26 bytes (two 13-character blocks
fit exactly, the third forces the truncation marker). -/
def optsCap26 : WalkOptions := ⟨false, 26, 1000⟩

/-! ## Helper lemmas -/

theorem sortPaths_sorted (l : List FsPath) : List.Sorted PathLeP (sortPaths l) :=
  List.sorted_insertionSort PathLeP l

theorem sortPaths_perm (l : List FsPath) : (sortPaths l).Perm l :=
  List.perm_insertionSort PathLeP l

theorem sortPaths_congr {l1 l2 : List FsPath} (h : l1.Perm l2) :
    sortPaths l1 = sortPaths l2 :=
  List.eq_of_perm_of_sorted
    ((sortPaths_perm l1).trans (h.trans (sortPaths_perm l2).symm))
    (sortPaths_sorted l1) (sortPaths_sorted l2)

theorem dirEntriesSorted_congr {fs : FS} {rd2 : FsPath → Except Unit (List (Option FsPath))}
    (h : ∀ p, readDirRel (fs.readDir p) (rd2 p)) (p : FsPath) :
    dirEntriesSorted { fs with readDir := rd2 } p = dirEntriesSorted fs p := by
  have hp := h p
  unfold dirEntriesSorted
  simp only
  cases h1 : fs.readDir p with
  | error e =>
    cases h2 : rd2 p with
    | error e2 => cases e; cases e2; rfl
    | ok l2 => rw [h1, h2] at hp; exact absurd hp (by simp [readDirRel])
  | ok l1 =>
    cases h2 : rd2 p with
    | error e2 => rw [h1, h2] at hp; exact absurd hp (by simp [readDirRel])
    | ok l2 =>
      rw [h1, h2] at hp
      simp only [readDirRel] at hp
      simp only [Except.ok.injEq]
      exact sortPaths_congr (List.Perm.filterMap id hp.symm)

theorem canon_rd (fs : FS) (rd2 : FsPath → Except Unit (List (Option FsPath))) :
    ({ fs with readDir := rd2 } : FS).canon = fs.canon := rfl

theorem process_file_rd (fs : FS) (rd2 : FsPath → Except Unit (List (Option FsPath)))
    (w : DirectoryWalker) (p : FsPath) :
    process_file { fs with readDir := rd2 } w p = process_file fs w p := rfl

theorem matcher_should_ignore_rd (fs : FS) (rd2 : FsPath → Except Unit (List (Option FsPath)))
    (mt : GitignoreMatcher) (p : FsPath) :
    GitignoreMatcher.should_ignore { fs with readDir := rd2 } mt p =
      GitignoreMatcher.should_ignore fs mt p := rfl

theorem consultLoop_rd (fs : FS) (rd2 : FsPath → Except Unit (List (Option FsPath)))
    (ms : List (FsPath × GitignoreMatcher)) (path : FsPath) :
    ∀ (rel : List String) (current : FsPath),
    consultLoop { fs with readDir := rd2 } ms current rel path =
      consultLoop fs ms current rel path := by
  intro rel
  induction rel with
  | nil => intro current; rfl
  | cons c rest ih =>
    intro current
    simp only [consultLoop]
    cases lookupMatcher ms (current ++ [c]) with
    | none => exact ih _
    | some mt =>
      dsimp only
      rw [matcher_should_ignore_rd]
      by_cases hmt : GitignoreMatcher.should_ignore fs mt path
      · simp [hmt]
      · simp only [hmt, if_false]
        exact ih _

theorem manager_should_ignore_rd (fs : FS) (rd2 : FsPath → Except Unit (List (Option FsPath)))
    (g : GitignoreManager) (p : FsPath) :
    GitignoreManager.should_ignore { fs with readDir := rd2 } g p =
      GitignoreManager.should_ignore fs g p := by
  simp only [GitignoreManager.should_ignore, matcher_should_ignore_rd, consultLoop_rd]

theorem should_process_rd (fs : FS) (rd2 : FsPath → Except Unit (List (Option FsPath)))
    (ia : Bool) (ms : List GitignoreManager) (st : Stats) (p : FsPath) :
    should_process { fs with readDir := rd2 } ia ms st p = should_process fs ia ms st p := by
  simp only [should_process, manager_should_ignore_rd]

theorem checkManagers_rd (fs : FS) (rd2 : FsPath → Except Unit (List (Option FsPath)))
    (p : FsPath) (ms : List GitignoreManager) (st : Stats) :
    checkManagers { fs with readDir := rd2 } p ms st = checkManagers fs p ms st := rfl

theorem partitionEntries_rd (fs : FS) (rd2 : FsPath → Except Unit (List (Option FsPath)))
    (ia : Bool) (ms : List GitignoreManager) (es : List FsPath) (st : Stats) :
    partitionEntries { fs with readDir := rd2 } ia ms es st =
      partitionEntries fs ia ms es st := by
  simp only [partitionEntries, should_process_rd]

theorem add_root_rd (fs : FS) (rd2 : FsPath → Except Unit (List (Option FsPath)))
    (w : DirectoryWalker) (p : FsPath) :
    DirectoryWalker.add_root { fs with readDir := rd2 } w p =
      DirectoryWalker.add_root fs w p := rfl

theorem processFilesLoop_rd (fs : FS) (rd2 : FsPath → Except Unit (List (Option FsPath)))
    (l : List FsPath) : ∀ w : DirectoryWalker,
    processFilesLoop { fs with readDir := rd2 } w l = processFilesLoop fs w l := by
  induction l with
  | nil => intro w; rfl
  | cons f rest ih =>
    intro w
    simp only [processFilesLoop]
    by_cases ht : w.truncated
    · simp [ht]
    · simp only [ht, if_false]
      rw [process_file_rd]
      exact ih _

theorem process_directory_bfs_rd (fs : FS) (rd2 : FsPath → Except Unit (List (Option FsPath)))
    (h : ∀ p, readDirRel (fs.readDir p) (rd2 p)) (w : DirectoryWalker) (p : FsPath) :
    process_directory_bfs { fs with readDir := rd2 } w p = process_directory_bfs fs w p := by
  simp only [process_directory_bfs, checkManagers_rd, partitionEntries_rd,
    processFilesLoop_rd, dirEntriesSorted_congr h]

theorem process_path_bfs_rd (fs : FS) (rd2 : FsPath → Except Unit (List (Option FsPath)))
    (h : ∀ p, readDirRel (fs.readDir p) (rd2 p)) (w : DirectoryWalker) (p : FsPath) :
    process_path_bfs { fs with readDir := rd2 } w p = process_path_bfs fs w p := by
  simp only [process_path_bfs, canon_rd, manager_should_ignore_rd, process_file_rd,
    process_directory_bfs_rd fs rd2 h]

theorem walkLoop_rd (fs : FS) (rd2 : FsPath → Except Unit (List (Option FsPath)))
    (h : ∀ p, readDirRel (fs.readDir p) (rd2 p)) :
    ∀ (fuel : Nat) (w : DirectoryWalker) (q : List FsPath),
    walkLoop { fs with readDir := rd2 } fuel w q = walkLoop fs fuel w q := by
  intro fuel
  induction fuel with
  | zero =>
    intro w q
    cases q with
    | nil => rfl
    | cons p rest => rfl
  | succ f ih =>
    intro w q
    cases q with
    | nil => rfl
    | cons p rest =>
      simp only [walkLoop]
      by_cases ht : w.truncated
      · simp [ht]
      · simp only [ht, if_false]
        rw [process_path_bfs_rd fs rd2 h]
        cases hx : process_path_bfs fs w p with
        | error e => rfl
        | ok pr => exact ih pr.1 (rest ++ pr.2)

theorem initialWalker_rd (fs : FS) (rd2 : FsPath → Except Unit (List (Option FsPath)))
    (paths : List FsPath) (opts : WalkOptions) :
    initialWalker { fs with readDir := rd2 } paths opts = initialWalker fs paths opts := by
  simp only [initialWalker, add_root_rd]

theorem walk_and_collectW_rd (fs : FS) (rd2 : FsPath → Except Unit (List (Option FsPath)))
    (h : ∀ p, readDirRel (fs.readDir p) (rd2 p)) (fuel : Nat) (paths : List FsPath)
    (opts : WalkOptions) :
    walk_and_collectW { fs with readDir := rd2 } fuel paths opts =
      walk_and_collectW fs fuel paths opts := by
  unfold walk_and_collectW walkW
  rw [initialWalker_rd, walkLoop_rd fs rd2 h]

theorem walk_and_collect_as_W (fs : FS) (fuel now : Nat) (roots : List FsPath)
    (opts : WalkOptions) :
    walk_and_collect fs fuel now roots opts =
      match walk_and_collectW fs fuel roots opts with
      | none => none
      | some (.error e) => some (.error e)
      | some (.ok w') =>
        some (.ok ⟨strJoinSep "\n" w'.contents, ⟨w'.stats, now⟩, w'.truncated⟩) := rfl

/-- Claim C8 (amended): two walks of the same unchanged tree with identical
options produce byte-identical `content`, identical counter statistics and
the same truncation flag, regardless of the raw `read_dir` enumeration
order (modelled as a per-directory permutation) and of when each run
happened (`now1`, `now2`); directory entries are always consumed in
`pathLe`-sorted order.  Only the collector's creation instant — and hence
the elapsed-time reading the spec exposes — differs between the runs. -/
theorem c8_determinism_modulo_enumeration
    (fs : FS) (rd2 : FsPath → Except Unit (List (Option FsPath)))
    (h : ∀ p, readDirRel (fs.readDir p) (rd2 p))
    (fuel now1 now2 : Nat) (roots : List FsPath) (opts : WalkOptions) :
    walk_and_collectW { fs with readDir := rd2 } fuel roots opts =
      walk_and_collectW fs fuel roots opts
    ∧ (walk_and_collect { fs with readDir := rd2 } fuel now1 roots opts).map
        (Except.map WalkResult.content) =
      (walk_and_collect fs fuel now2 roots opts).map (Except.map WalkResult.content)
    ∧ (walk_and_collect { fs with readDir := rd2 } fuel now1 roots opts).map
        (Except.map (fun r => r.stats.stats)) =
      (walk_and_collect fs fuel now2 roots opts).map (Except.map (fun r => r.stats.stats))
    ∧ (walk_and_collect { fs with readDir := rd2 } fuel now1 roots opts).map
        (Except.map WalkResult.truncated) =
      (walk_and_collect fs fuel now2 roots opts).map (Except.map WalkResult.truncated)
    ∧ (∀ p l, dirEntriesSorted fs p = .ok l → List.Sorted PathLeP l) := by
  have hW := walk_and_collectW_rd fs rd2 h fuel roots opts
  refine ⟨hW, ?_, ?_, ?_, ?_⟩
  · rw [walk_and_collect_as_W, walk_and_collect_as_W, hW]
    cases walk_and_collectW fs fuel roots opts with
    | none => rfl
    | some r => cases r with
      | error e => rfl
      | ok w' => rfl
  · rw [walk_and_collect_as_W, walk_and_collect_as_W, hW]
    cases walk_and_collectW fs fuel roots opts with
    | none => rfl
    | some r => cases r with
      | error e => rfl
      | ok w' => rfl
  · rw [walk_and_collect_as_W, walk_and_collect_as_W, hW]
    cases walk_and_collectW fs fuel roots opts with
    | none => rfl
    | some r => cases r with
      | error e => rfl
      | ok w' => rfl
  · intro p l hl
    unfold dirEntriesSorted at hl
    cases hr : fs.readDir p with
    | error e => rw [hr] at hl; exact absurd hl (by simp)
    | ok raw =>
      rw [hr] at hl
      simp only [Except.ok.injEq] at hl
      rw [← hl]
      exact sortPaths_sorted _

/-- Witness for C8's theorem at a concrete snapshot: the same two-file
tree enumerated in opposite raw orders, run at instants 3 and 5, yields
byte-identical content. -/
theorem c8_determinism_witness :
    (walk_and_collect fsTwoFilesRev 5 3 [["d"]] optsPlain).map
        (Except.map WalkResult.content) =
      (walk_and_collect fsTwoFiles 5 5 [["d"]] optsPlain).map
        (Except.map WalkResult.content) := by
  have h : ∀ p, readDirRel (fsTwoFiles.readDir p)
      ((fun p => if p == ["d"] then
          .ok [some ["d", "b"], some ["d", "a"]]
        else .error ()) p) := by
    intro p
    by_cases hp : p = ["d"]
    · subst hp
      simp only [fsTwoFiles, readDirRel]
      exact List.Perm.swap _ _ _
    · simp only [fsTwoFiles, readDirRel]
      have : (p == ["d"]) = false := by
        cases hb : p == ["d"]
        · rfl
        · exact absurd (by simpa using hb) hp
      rw [this]
      simp [readDirRel]
  exact (c8_determinism_modulo_enumeration fsTwoFiles _ h 5 3 5 [["d"]] optsPlain).2.1

/-- Counterexample to C8 as stated: the same walk run at creation instants
0 and 7 returns byte-identical content but different `stats` values — the
collector's creation instant (the basis of the exposed elapsed wall time)
differs between the two runs. -/
theorem c8_stats_not_identical :
    (walk_and_collect fsTwoFiles 5 0 [["d"]] optsPlain).map
        (Except.map WalkResult.stats) ≠
      (walk_and_collect fsTwoFiles 5 7 [["d"]] optsPlain).map
        (Except.map WalkResult.stats)
    ∧ (walk_and_collect fsTwoFiles 5 0 [["d"]] optsPlain).map
        (Except.map WalkResult.content) =
      (walk_and_collect fsTwoFiles 5 7 [["d"]] optsPlain).map
        (Except.map WalkResult.content) := by
  constructor
  · intro h
    rw [show (walk_and_collect fsTwoFiles 5 0 [["d"]] optsPlain).map
          (Except.map WalkResult.stats) =
        some (.ok ⟨⟨2, 1, 0, 2, 0, 0, 0, 0, 0, 0, [], [], 26⟩, 0⟩) from rfl,
      show (walk_and_collect fsTwoFiles 5 7 [["d"]] optsPlain).map
          (Except.map WalkResult.stats) =
        some (.ok ⟨⟨2, 1, 0, 2, 0, 0, 0, 0, 0, 0, [], [], 26⟩, 7⟩) from rfl] at h
    simp at h
  · rfl

/-- Claim C1 (amended): a failure of `fs::read_dir` on a directory being
expanded is fatal — `process_directory_bfs` propagates it as an `Err`
(walker.rs line 206 applies `?` to `fs::read_dir`), so `walk_and_collect`
aborts instead of treating the directory as empty.  Only the per-entry
failures inside an otherwise readable directory are silently dropped. -/
theorem c1_dir_read_failure_fatal (fs : FS) (w : DirectoryWalker) (path : FsPath)
    (h1 : w.truncated = false) (h2 : fs.readDir path = .error ()) :
    process_directory_bfs fs w path = .error () := by
  unfold process_directory_bfs
  rw [h1]
  simp only [Bool.false_eq_true, if_false, dirEntriesSorted, h2]

/-- Witness for C1's theorem: the unreadable directory `d`. -/
theorem c1_dir_read_failure_fatal_witness :
    process_directory_bfs fsUnreadableDir (DirectoryWalker.new optsPlain) ["d"] =
      .error () :=
  c1_dir_read_failure_fatal fsUnreadableDir (DirectoryWalker.new optsPlain) ["d"] rfl rfl

/-- Counterexample to C1 as stated: walking a root directory whose entries
cannot be read does not return a `WalkResult` at all — `walk_and_collect`
returns the propagated I/O error. -/
theorem c1_unreadable_dir_aborts_walk :
    fsUnreadableDir.readDir ["d"] = .error ()
    ∧ fsUnreadableDir.isDir ["d"] = true
    ∧ walk_and_collect fsUnreadableDir 3 0 [["d"]] optsPlain = some (.error ()) :=
  ⟨rfl, rfl, rfl⟩

/-- Claim C2: the walker has no exclude-pattern filtering.  `WalkOptions`
(walker.rs lines 13-18, embedded above with exactly its three fields)
carries no `excludePatterns`, and a walk over a file that matches the
user pattern `*.txt` (as `GlobMatcher::matches` confirms) still emits the
file's content. -/
theorem c2_exclude_patterns_never_consulted :
    globMatch "a.txt" "*.txt" = true
    ∧ (walk_and_collect fsOneTxt 3 0 [["d"]] ⟨false, 1000000, 1000000⟩).map
        (Except.map WalkResult.content) = some (.ok "--- d/a.txt ---\nhello") :=
  ⟨rfl, rfl⟩

/-- Claim C3: a file reached twice through different directory entries is
emitted twice.  `link.txt` and `original.txt` canonicalize to the same
filesystem object, yet the walk emits `orig_content` under both names and
counts two processed files: files discovered inside a directory go
straight to `process_file` (walker.rs lines 232-237) without the
canonicalized-visited-set check, which guards only queued paths. -/
theorem c3_symlinked_file_content_duplicated :
    fsSymlinkTwin.canon ["d", "link.txt"] = fsSymlinkTwin.canon ["d", "original.txt"]
    ∧ (walk_and_collect fsSymlinkTwin 5 0 [["d"]] optsPlain).map
        (Except.map WalkResult.content) =
      some (.ok "--- d/link.txt ---\norig_content\n--- d/original.txt ---\norig_content")
    ∧ (walk_and_collectW fsSymlinkTwin 5 [["d"]] optsPlain).map
        (Except.map (fun w => w.stats.files_processed)) = some (.ok 2) :=
  ⟨rfl, rfl, rfl⟩

/-- Claim C5 (amended): the returned content is the emitted blocks joined
by a single newline character (walker.rs line 116, `join("\n")`), not by
a blank line. -/
theorem c5_blocks_joined_by_single_newline (fs : FS) (fuel now : Nat)
    (roots : List FsPath) (opts : WalkOptions) (w' : DirectoryWalker)
    (h : walk_and_collectW fs fuel roots opts = some (.ok w')) :
    walk_and_collect fs fuel now roots opts =
      some (.ok ⟨strJoinSep "\n" w'.contents, ⟨w'.stats, now⟩, w'.truncated⟩) := by
  rw [walk_and_collect_as_W, h]

/-- Witness for C5's theorem on the two-file tree. -/
theorem c5_blocks_joined_witness :
    walk_and_collect fsTwoFiles 5 0 [["d"]] optsPlain =
      some (.ok ⟨"--- d/a ---\nA\n--- d/b ---\nB",
        ⟨⟨2, 1, 0, 2, 0, 0, 0, 0, 0, 0, [], [], 26⟩, 0⟩, false⟩) :=
  c5_blocks_joined_by_single_newline fsTwoFiles 5 0 [["d"]] optsPlain _ rfl

/-- Counterexample to C5 as stated: with blocks that do not end in a
newline, the returned content differs from the blocks joined by a blank
line — adjacent blocks are separated by one `'\n'`, with no empty line
between them. -/
theorem c5_content_not_blank_line_joined :
    (walk_and_collectW fsTwoFiles 5 [["d"]] optsPlain).map
        (Except.map DirectoryWalker.contents) =
      some (.ok ["--- d/a ---\nA", "--- d/b ---\nB"])
    ∧ (walk_and_collect fsTwoFiles 5 0 [["d"]] optsPlain).map
        (Except.map WalkResult.content) =
      some (.ok "--- d/a ---\nA\n--- d/b ---\nB")
    ∧ "--- d/a ---\nA\n--- d/b ---\nB" ≠
        blocksJoinedByBlankLine ["--- d/a ---\nA", "--- d/b ---\nB"] := by
  refine ⟨rfl, rfl, ?_⟩
  decide

/-- Claim C9: the shared work queue's shutdown state is entered exactly
once — by a pop that finds the queue empty with the active counter at
zero, or by the forced `shutdown` — and is terminal: every later pop
observes "no more work" immediately without changing the state, `extend`
adds nothing even when offered items, and no operation ever clears the
flag. -/
theorem c9_shutdown_entered_once_and_terminal (s : WorkQueue) (ps : List FsPath) (op : QOp) :
    (s.shutdown = true → s.popStep = (.noWork, s))
    ∧ (s.shutdown = true → s.extend ps = s)
    ∧ (s.shutdown = true → (qStep s op).shutdown = true)
    ∧ ((qStep s op).shutdown = true →
        s.shutdown = true ∨ op = .force ∨
          (op = .pop ∧ s.queue = [] ∧ s.active_tasks = 0)) := by
  refine ⟨?_, ?_, ?_, ?_⟩
  · intro h
    simp [WorkQueue.popStep, h]
  · intro h
    by_cases hp : ps.isEmpty <;> simp [WorkQueue.extend, h, hp]
  · intro h
    cases op with
    | pop => simp [qStep, WorkQueue.popStep, h]
    | ext ps2 =>
      by_cases hp : ps2.isEmpty <;> simp [qStep, WorkQueue.extend, h, hp]
    | complete => simpa [qStep, WorkQueue.complete_task] using h
    | force => simp [qStep, WorkQueue.force_shutdown]
    | pushInit p => simpa [qStep, WorkQueue.push_initial] using h
  · intro h
    cases op with
    | pop =>
      by_cases hs : s.shutdown = true
      · exact Or.inl hs
      · cases hq : s.queue with
        | cons p rest =>
          simp [qStep, WorkQueue.popStep, hs, hq] at h
        | nil =>
          by_cases ha : s.active_tasks = 0
          · exact Or.inr (Or.inr ⟨rfl, by simp [hq], ha⟩)
          · simp [qStep, WorkQueue.popStep, hs, hq, ha] at h
    | ext ps2 =>
      by_cases hp : ps2.isEmpty
      · simp only [qStep, WorkQueue.extend, hp, if_true] at h
        exact Or.inl h
      · by_cases hs : s.shutdown = true
        · exact Or.inl hs
        · simp [qStep, WorkQueue.extend, hp, hs] at h
    | complete =>
      simp only [qStep, WorkQueue.complete_task] at h
      exact Or.inl h
    | force => exact Or.inr (Or.inl rfl)
    | pushInit p =>
      simp only [qStep, WorkQueue.push_initial] at h
      exact Or.inl h

/-- Witness for C9's theorem: a shutdown state with leftover junk in the
queue ignores pops and extends, and an idle pop (empty queue, zero active
tasks) is one of the two ways in. -/
theorem c9_shutdown_witness :
    WorkQueue.popStep ⟨[["x"]], 2, true⟩ = (.noWork, ⟨[["x"]], 2, true⟩)
    ∧ WorkQueue.extend ⟨[["x"]], 2, true⟩ [["y"]] = ⟨[["x"]], 2, true⟩
    ∧ (qStep ⟨[["x"]], 2, true⟩ .complete).shutdown = true
    ∧ ((false : Bool) = true ∨ QOp.pop = QOp.force ∨
        (QOp.pop = QOp.pop ∧ ([] : List FsPath) = [] ∧ (0 : Nat) = 0)) :=
  ⟨(c9_shutdown_entered_once_and_terminal ⟨[["x"]], 2, true⟩ [["y"]] .complete).1 rfl,
   (c9_shutdown_entered_once_and_terminal ⟨[["x"]], 2, true⟩ [["y"]] .complete).2.1 rfl,
   (c9_shutdown_entered_once_and_terminal ⟨[["x"]], 2, true⟩ [["y"]] .complete).2.2.1 rfl,
   (c9_shutdown_entered_once_and_terminal ⟨[], 0, false⟩ [] .pop).2.2.2 rfl⟩

theorem walkLoop_nil (fs : FS) (fuel : Nat) (w : DirectoryWalker) :
    walkLoop fs fuel w [] = some (.ok w) := by
  cases fuel <;> rfl

/-- Claim C10: with `includeAll = false`, the dot-skip rule applies to a
supplied root itself: a root whose final name component begins with `'.'`
(and which no ignore rule already caught) is recorded as a skipped file
or skipped directory and contributes no blocks and no descendants. -/
theorem c10_hidden_root_skipped (fs : FS) (opts : WalkOptions) (root c : FsPath)
    (fuel now : Nat)
    (hall : opts.include_all = false)
    (hc : fs.canon root = some c)
    (hig : GitignoreManager.should_ignore fs (GitignoreManager.new fs root) root = false)
    (hhid : isHiddenName root = true)
    (hfd : fs.isFile root = true ∨ (fs.isFile root = false ∧ fs.isDir root = true)) :
    ∃ w', walk_and_collectW fs (fuel + 1) [root] opts = some (.ok w')
      ∧ w'.contents = []
      ∧ w'.truncated = false
      ∧ (fs.isFile root = true →
          w'.stats.skipped_files = (initialWalker fs [root] opts).stats.skipped_files + 1)
      ∧ (fs.isFile root = false →
          w'.stats.skipped_directories =
            (initialWalker fs [root] opts).stats.skipped_directories + 1)
      ∧ walk_and_collect fs (fuel + 1) now [root] opts =
          some (.ok ⟨"", ⟨w'.stats, now⟩, false⟩) := by
  have hw0 : initialWalker fs [root] opts =
      DirectoryWalker.add_root fs (DirectoryWalker.new opts) root := rfl
  have hproc : process_path_bfs fs (initialWalker fs [root] opts) root =
      .ok (if fs.isFile root
        then { initialWalker fs [root] opts with
                visited_paths := [c],
                stats := (initialWalker fs [root] opts).stats.record_skipped_file }
        else { initialWalker fs [root] opts with
                visited_paths := [c],
                stats := (initialWalker fs [root] opts).stats.record_skipped_directory },
        []) := by
    unfold process_path_bfs
    have htr : (initialWalker fs [root] opts).truncated = false := rfl
    have hvis : (initialWalker fs [root] opts).visited_paths = ([] : List FsPath) := rfl
    have hmgr : (initialWalker fs [root] opts).gitignore_managers =
        [GitignoreManager.new fs root] := rfl
    have hopt : (initialWalker fs [root] opts).options = opts := rfl
    rw [htr, hc]
    simp only [hvis, List.contains_nil, Bool.false_eq_true, if_false,
      hmgr, hopt, hall, List.any_cons, List.any_nil, hig, Bool.not_false,
      Bool.true_and, Bool.or_false, Bool.and_false]
    rcases hfd with hf | ⟨hf, hd⟩
    · simp [hf, hhid, htr, hvis]
    · simp [hf, hd, hhid, htr, hvis]
  have hcont : (initialWalker fs [root] opts).contents = ([] : List String) := rfl
  have htr2 : (initialWalker fs [root] opts).truncated = false := rfl
  have hW : walk_and_collectW fs (fuel + 1) [root] opts = some (.ok
      (if fs.isFile root = true
        then { initialWalker fs [root] opts with
                visited_paths := [c],
                stats := (initialWalker fs [root] opts).stats.record_skipped_file }
        else { initialWalker fs [root] opts with
                visited_paths := [c],
                stats := (initialWalker fs [root] opts).stats.record_skipped_directory })) := by
    show walkLoop fs (fuel + 1) (initialWalker fs [root] opts)
        (initialWalker fs [root] opts).root_paths = _
    rw [show (initialWalker fs [root] opts).root_paths = [root] from rfl]
    simp only [walkLoop, hproc]
    rcases hfd with hf | ⟨hf, _⟩ <;> simp [hf, htr2, walkLoop_nil]
  refine ⟨_, hW, ?_, ?_, ?_, ?_, ?_⟩
  · rcases hfd with hf | ⟨hf, _⟩ <;> simp [hf, hcont]
  · rcases hfd with hf | ⟨hf, _⟩ <;> simp [hf, htr2]
  · intro hf
    simp [hf, Stats.record_skipped_file]
  · intro hf
    simp [hf, Stats.record_skipped_directory]
  · rw [walk_and_collect_as_W, hW]
    rcases hfd with hf | ⟨hf, _⟩ <;> simp [hf, hcont, htr2, strJoinSep]

/-- Witness for C10's theorem: the hidden root file `.env` is skipped,
counted, and contributes nothing. -/
theorem c10_hidden_root_witness :
    ∃ w', walk_and_collectW fsHiddenRoot (2 + 1) [[".env"]] optsPlain = some (.ok w')
      ∧ w'.contents = []
      ∧ w'.truncated = false
      ∧ (fsHiddenRoot.isFile [".env"] = true →
          w'.stats.skipped_files =
            (initialWalker fsHiddenRoot [[".env"]] optsPlain).stats.skipped_files + 1)
      ∧ (fsHiddenRoot.isFile [".env"] = false →
          w'.stats.skipped_directories =
            (initialWalker fsHiddenRoot [[".env"]] optsPlain).stats.skipped_directories + 1)
      ∧ walk_and_collect fsHiddenRoot (2 + 1) 0 [[".env"]] optsPlain =
          some (.ok ⟨"", ⟨w'.stats, 0⟩, false⟩) :=
  c10_hidden_root_skipped fsHiddenRoot optsPlain [".env"] [".env"] 2 0
    rfl rfl rfl rfl (Or.inl rfl)

theorem bool_eq_false {b : Bool} (h : ¬ b = true) : b = false := by
  cases b
  · rfl
  · exact absurd rfl h

theorem consultLoop_eq_any (fs : FS) (ms : List (FsPath × GitignoreMatcher)) (path : FsPath) :
    ∀ (rel : List String) (current : FsPath),
    consultLoop fs ms current rel path =
      ((ancestorsFrom current rel).filterMap (lookupMatcher ms)).any
        (fun mt => GitignoreMatcher.should_ignore fs mt path) := by
  intro rel
  induction rel with
  | nil => intro current; rfl
  | cons c rest ih =>
    intro current
    simp only [consultLoop, ancestorsFrom, List.filterMap_cons]
    cases lookupMatcher ms (current ++ [c]) with
    | none => exact ih _
    | some mt =>
      dsimp only
      simp only [List.any_cons]
      by_cases hmt : GitignoreMatcher.should_ignore fs mt path
      · simp [hmt]
      · simp only [hmt, if_false, bool_eq_false hmt, Bool.false_or]
        exact ih _

/-- Claim C6: `GitignoreManager::should_ignore` consults the registered
matchers along the path in root-to-leaf order and returns true exactly
when some consulted matcher ignores the path (the source's early return
at the first such matcher computes that disjunction); consequently any
single consulted matcher that ignores the path — an ancestor, in
particular — forces the verdict to true no matter what any deeper
matcher (e.g. one holding a negation pattern) would say. -/
theorem c6_manager_first_match_semantics (fs : FS) (m : GitignoreManager) (path : FsPath) :
    GitignoreManager.should_ignore fs m path =
      (consultedMatchers m path).any (fun mt => GitignoreMatcher.should_ignore fs mt path)
    ∧ (∀ mt ∈ consultedMatchers m path,
        GitignoreMatcher.should_ignore fs mt path = true →
        GitignoreManager.should_ignore fs m path = true) := by
  have h1 : GitignoreManager.should_ignore fs m path =
      (consultedMatchers m path).any
        (fun mt => GitignoreMatcher.should_ignore fs mt path) := by
    unfold GitignoreManager.should_ignore consultedMatchers consultedDirs
    simp only [List.filterMap_cons]
    cases lookupMatcher m.matchers m.root_path with
    | none =>
      dsimp only
      cases hs : stripPref m.root_path path with
      | none => rfl
      | some rel => exact consultLoop_eq_any fs m.matchers path rel m.root_path
    | some mt0 =>
      dsimp only
      simp only [List.any_cons]
      by_cases h0 : GitignoreMatcher.should_ignore fs mt0 path
      · simp [h0]
      · simp only [h0, if_false]
        simp only [bool_eq_false h0, Bool.false_or]
        cases hs : stripPref m.root_path path with
        | none => rfl
        | some rel => exact consultLoop_eq_any fs m.matchers path rel m.root_path
  refine ⟨h1, ?_⟩
  intro mt hmem hmt
  rw [h1]
  rw [List.any_eq_true]
  exact ⟨mt, hmem, by rw [hmt]⟩

/-- A manager over root `r` whose root ignore file holds `f.txt` and whose
subdirectory `r/sub` holds the negation `!f.txt`. -/
def mgrNested : GitignoreManager :=
  ⟨[(["r"], GitignoreMatcher.new "f.txt" ["r"]),
    (["r", "sub"], GitignoreMatcher.new "!f.txt" ["r", "sub"])],
   [["r", ".gitignore"], ["r", "sub", ".gitignore"]],
   ["r"]⟩

/-- Witness for C6's theorem: the deeper matcher's negation pattern
re-includes nothing — its own verdict on `r/sub/f.txt` is false, the
ancestor ignores the path, and the manager's verdict stays true. -/
theorem c6_manager_witness :
    GitignoreMatcher.should_ignore fsNested (GitignoreMatcher.new "!f.txt" ["r", "sub"])
        ["r", "sub", "f.txt"] = false
    ∧ GitignoreManager.should_ignore fsNested mgrNested ["r", "sub", "f.txt"] = true :=
  ⟨rfl,
   (c6_manager_first_match_semantics fsNested mgrNested ["r", "sub", "f.txt"]).2
     (GitignoreMatcher.new "f.txt" ["r"]) (by decide) rfl⟩

theorem getLast?_cons_is_some {α : Type} (a : α) (l : List α) :
    ∃ r, (a :: l).getLast? = some r := by
  induction l generalizing a with
  | nil => exact ⟨a, rfl⟩
  | cons b t ih =>
    rcases ih b with ⟨r, hr⟩
    exact ⟨r, by rw [List.getLast?_cons_cons]; exact hr⟩

theorem foldl_last_match (path_str : String) (isdir : Bool) :
    ∀ (pats : List Pattern) (acc : Bool),
    pats.foldl
      (fun ignored pat =>
        if pat.is_directory_only && !isdir then ignored
        else if matchesPattern path_str pat.pattern pat.is_absolute then !pat.is_negation
        else ignored) acc =
      (match (matchingPats path_str isdir pats).getLast? with
       | some pat => !pat.is_negation
       | none => acc) := by
  intro pats
  induction pats with
  | nil => intro acc; rfl
  | cons p ps ih =>
    intro acc
    rw [List.foldl_cons, ih]
    by_cases hskip : (p.is_directory_only && !isdir) = true
    · have hfp : (!(p.is_directory_only && !isdir)) = false := by rw [hskip]; rfl
      have hM : matchingPats path_str isdir (p :: ps) = matchingPats path_str isdir ps := by
        simp only [matchingPats, applicablePats, List.filter_cons, hfp,
          Bool.false_eq_true, if_false]
      rw [hM]
      simp [hskip]
    · have hfp : (!(p.is_directory_only && !isdir)) = true := by
        rw [bool_eq_false hskip]; rfl
      by_cases hmatch : matchesPattern path_str p.pattern p.is_absolute = true
      · have hM : matchingPats path_str isdir (p :: ps) =
            p :: matchingPats path_str isdir ps := by
          simp only [matchingPats, applicablePats, List.filter_cons, hfp, if_true]
          simp only [List.filter_cons, hmatch, if_true]
        rw [hM]
        simp only [bool_eq_false hskip, Bool.false_eq_true, if_false, hmatch, if_true]
        cases hMs : matchingPats path_str isdir ps with
        | nil => simp
        | cons q qs =>
          simp only [List.getLast?_cons_cons]
          rcases getLast?_cons_is_some q qs with ⟨r, hr⟩
          rw [hr]
      · have hM : matchingPats path_str isdir (p :: ps) = matchingPats path_str isdir ps := by
          simp only [matchingPats, applicablePats, List.filter_cons, hfp, if_true]
          simp only [List.filter_cons, bool_eq_false hmatch, Bool.false_eq_true, if_false]
        rw [hM]
        simp [bool_eq_false hskip, bool_eq_false hmatch]

/-- Claim C7: `GitignoreMatcher::should_ignore` computes the last-match
verdict: relative to the base path (not a descendant, or the base
directory itself, is never ignored), it scans every pattern in file order
without short-circuiting, skips `directoryOnly` patterns when the target
is not a directory, overwrites the running flag with `!negated` at every
match, and therefore returns `!negated` of the *last* matching applicable
pattern (false when none matches). -/
theorem c7_matcher_last_match_wins (fs : FS) (m : GitignoreMatcher) (path : FsPath) :
    GitignoreMatcher.should_ignore fs m path =
      match stripPref m.base_path path with
      | none => false
      | some rel =>
        if rel.isEmpty then false
        else lastMatchVerdict (strJoinSep "/" rel) (fs.isDir path) m.patterns := by
  unfold GitignoreMatcher.should_ignore
  cases stripPref m.base_path path with
  | none => rfl
  | some rel =>
    dsimp only
    by_cases he : rel.isEmpty
    · simp [he]
    · simp only [he, Bool.false_eq_true, if_false]
      unfold lastMatchVerdict
      rw [foldl_last_match]

theorem isMarker_truncationMarker (a b c : Nat) :
    isMarkerBlock (truncationMarker a b c) = true := by
  simp only [truncationMarker, isMarkerBlock, String.data_append]
  rfl

theorem format_content_not_marker (p : FsPath) (c : FileContent) (s : String)
    (h : FileProcessor.format_content p c = some s) : isMarkerBlock s = false := by
  cases c with
  | text t =>
    simp only [FileProcessor.format_content, Option.some.injEq] at h
    rw [← h]
    simp only [isMarkerBlock, String.data_append]
    rfl
  | binary =>
    simp only [FileProcessor.format_content, Option.some.injEq] at h
    rw [← h]
    simp only [isMarkerBlock, String.data_append]
    rfl
  | unreadable => simp [FileProcessor.format_content] at h

theorem sumLens_append_single (l : List String) (s : String) :
    sumLens (l ++ [s]) = sumLens l + s.length := by
  simp [sumLens]

theorem strJoinSep_newline_length :
    ∀ l : List String, (strJoinSep "\n" l).length = sumLens l + (l.length - 1) := by
  intro l
  induction l with
  | nil => rfl
  | cons x xs ih =>
    cases xs with
    | nil => simp [strJoinSep, sumLens]
    | cons y ys =>
      show (x ++ "\n" ++ strJoinSep "\n" (y :: ys)).length = _
      have hlen : (x ++ "\n" ++ strJoinSep "\n" (y :: ys)).length =
          x.length + 1 + (strJoinSep "\n" (y :: ys)).length := by
        simp [String.length_append]
        rfl
      rw [hlen, ih]
      simp only [sumLens, List.map_cons, List.sum_cons, List.length_cons]
      simp only [sumLens] at *
      omega

/-- The shape the block list keeps throughout a walk: before truncation
every block is a `format_content` block (never a marker) and the running
`total_size` is their exact total, bounded by the cap; after truncation
the list is those blocks followed by exactly one marker. -/
def BlocksOk (w : DirectoryWalker) : Prop :=
  if w.truncated = true then
    ∃ pre mb, w.contents = pre ++ [mb] ∧ isMarkerBlock mb = true ∧
      (∀ b ∈ pre, isMarkerBlock b = false) ∧ sumLens pre ≤ w.options.max_size
  else
    (∀ b ∈ w.contents, isMarkerBlock b = false) ∧
    sumLens w.contents = w.total_size ∧ w.total_size ≤ w.options.max_size

theorem options_process_file (fs : FS) (w : DirectoryWalker) (p : FsPath) :
    (process_file fs w p).options = w.options := by
  unfold process_file
  dsimp only
  repeat' split
  all_goals rfl

theorem BlocksOk_process_file (fs : FS) (w : DirectoryWalker) (p : FsPath)
    (h0 : w.truncated = false) (h : BlocksOk w) : BlocksOk (process_file fs w p) := by
  have hfalse : (w.truncated = true) = False := by simp [h0]
  simp only [BlocksOk, hfalse, if_false] at h
  obtain ⟨hnm, hsum, hle⟩ := h
  unfold process_file
  dsimp only
  split
  · exact (by simp only [BlocksOk, hfalse, if_false]; exact ⟨hnm, hsum, hle⟩)
  · split
    · rename_i htext
      split
      · rename_i formatted hfmt
        split
        · rename_i hover
          simp only [BlocksOk, if_pos rfl]
          exact ⟨w.contents, _, rfl, isMarker_truncationMarker _ _ _, hnm, by omega⟩
        · rename_i hover
          simp only [BlocksOk, hfalse, if_false]
          refine ⟨?_, ?_, ?_⟩
          · intro b hb
            rcases List.mem_append.mp hb with hb | hb
            · exact hnm b hb
            · rcases List.mem_singleton.mp hb with rfl
              exact format_content_not_marker p _ _ hfmt
          · rw [sumLens_append_single, hsum]
          · omega
      · simp only [BlocksOk, hfalse, if_false]
        exact ⟨hnm, hsum, hle⟩
    · split
      · split
        · rename_i formatted hfmt
          split
          · rename_i hover
            simp only [BlocksOk, if_pos rfl]
            exact ⟨w.contents, _, rfl, isMarker_truncationMarker _ _ _, hnm, by omega⟩
          · rename_i hover
            simp only [BlocksOk, hfalse, if_false]
            refine ⟨?_, ?_, ?_⟩
            · intro b hb
              rcases List.mem_append.mp hb with hb | hb
              · exact hnm b hb
              · rcases List.mem_singleton.mp hb with rfl
                exact format_content_not_marker p _ _ hfmt
            · rw [sumLens_append_single, hsum]
            · omega
        · simp only [BlocksOk, hfalse, if_false]
          exact ⟨hnm, hsum, hle⟩
      · simp only [BlocksOk, hfalse, if_false]
        exact ⟨hnm, hsum, hle⟩
    · simp only [BlocksOk, hfalse, if_false]
      exact ⟨hnm, hsum, hle⟩

theorem BlocksOk_processFilesLoop (fs : FS) :
    ∀ (files : List FsPath) (w : DirectoryWalker), BlocksOk w →
    BlocksOk (processFilesLoop fs w files) := by
  intro files
  induction files with
  | nil => intro w h; exact h
  | cons f rest ih =>
    intro w h
    unfold processFilesLoop
    split
    · exact h
    · rename_i ht
      exact ih _ (BlocksOk_process_file fs w f (bool_eq_false ht) h)

theorem options_processFilesLoop (fs : FS) :
    ∀ (files : List FsPath) (w : DirectoryWalker),
    (processFilesLoop fs w files).options = w.options := by
  intro files
  induction files with
  | nil => intro w; rfl
  | cons f rest ih =>
    intro w
    unfold processFilesLoop
    split
    · rfl
    · rw [ih, options_process_file]

theorem BlocksOk_process_directory_bfs (fs : FS) (w : DirectoryWalker) (p : FsPath)
    (h : BlocksOk w) (w' : DirectoryWalker) (sd : List FsPath)
    (hr : process_directory_bfs fs w p = .ok (w', sd)) :
    BlocksOk w' ∧ w'.options = w.options := by
  unfold process_directory_bfs at hr
  split at hr
  · simp only [Except.ok.injEq, Prod.mk.injEq] at hr
    rw [← hr.1]
    exact ⟨h, rfl⟩
  · dsimp only at hr
    split at hr
    · exact absurd hr (by simp)
    · simp only [Except.ok.injEq, Prod.mk.injEq] at hr
      rw [← hr.1]
      constructor
      · exact BlocksOk_processFilesLoop fs _ _ h
      · rw [options_processFilesLoop]

theorem BlocksOk_process_path_bfs (fs : FS) (w : DirectoryWalker) (p : FsPath)
    (h : BlocksOk w) (w' : DirectoryWalker) (sd : List FsPath)
    (hr : process_path_bfs fs w p = .ok (w', sd)) :
    BlocksOk w' ∧ w'.options = w.options := by
  unfold process_path_bfs at hr
  split at hr
  · simp only [Except.ok.injEq, Prod.mk.injEq] at hr
    rw [← hr.1]
    exact ⟨h, rfl⟩
  · rename_i htr
    split at hr
    · simp only [Except.ok.injEq, Prod.mk.injEq] at hr
      rw [← hr.1]
      exact ⟨h, rfl⟩
    · rename_i cp hcp
      split at hr
      · simp only [Except.ok.injEq, Prod.mk.injEq] at hr
        rw [← hr.1]
        exact ⟨h, rfl⟩
      · dsimp only at hr
        split at hr
        · simp only [Except.ok.injEq, Prod.mk.injEq] at hr
          rw [← hr.1]
          exact ⟨h, rfl⟩
        · split at hr
          · -- is_file branch
            split at hr
            · simp only [Except.ok.injEq, Prod.mk.injEq] at hr
              rw [← hr.1]
              exact ⟨h, rfl⟩
            · simp only [Except.ok.injEq, Prod.mk.injEq] at hr
              rw [← hr.1]
              refine ⟨BlocksOk_process_file fs _ p (bool_eq_false htr) h, ?_⟩
              rw [options_process_file]
          · split at hr
            · -- is_dir branch
              split at hr
              · simp only [Except.ok.injEq, Prod.mk.injEq] at hr
                rw [← hr.1]
                exact ⟨h, rfl⟩
              · exact BlocksOk_process_directory_bfs fs
                  { w with visited_paths := cp :: w.visited_paths } p h w' sd hr
            · simp only [Except.ok.injEq, Prod.mk.injEq] at hr
              rw [← hr.1]
              exact ⟨h, rfl⟩

theorem BlocksOk_walkLoop (fs : FS) :
    ∀ (fuel : Nat) (q : List FsPath) (w : DirectoryWalker), BlocksOk w →
    ∀ w', walkLoop fs fuel w q = some (.ok w') →
    BlocksOk w' ∧ w'.options = w.options := by
  intro fuel
  induction fuel with
  | zero =>
    intro q w h w' hr
    cases q with
    | nil =>
      simp only [walkLoop, Option.some.injEq, Except.ok.injEq] at hr
      rw [← hr]
      exact ⟨h, rfl⟩
    | cons p rest =>
      simp only [walkLoop] at hr
      split at hr
      · simp only [Option.some.injEq, Except.ok.injEq] at hr
        rw [← hr]
        exact ⟨h, rfl⟩
      · exact absurd hr (by simp)
  | succ f ih =>
    intro q w h w' hr
    cases q with
    | nil =>
      simp only [walkLoop, Option.some.injEq, Except.ok.injEq] at hr
      rw [← hr]
      exact ⟨h, rfl⟩
    | cons p rest =>
      simp only [walkLoop] at hr
      split at hr
      · simp only [Option.some.injEq, Except.ok.injEq] at hr
        rw [← hr]
        exact ⟨h, rfl⟩
      · rename_i htr
        cases hp : process_path_bfs fs w p with
        | error e => rw [hp] at hr; exact absurd hr (by simp)
        | ok pr =>
          rw [hp] at hr
          dsimp only at hr
          have hstep := BlocksOk_process_path_bfs fs w p h pr.1 pr.2 (by rw [hp])
          have := ih (rest ++ pr.2) pr.1 hstep.1 w' hr
          exact ⟨this.1, by rw [this.2, hstep.2]⟩

theorem BlocksOk_foldl_add_root (fs : FS) :
    ∀ (roots : List FsPath) (w : DirectoryWalker), BlocksOk w →
    BlocksOk (roots.foldl (fun w p => DirectoryWalker.add_root fs w p) w) := by
  intro roots
  induction roots with
  | nil => intro w h; exact h
  | cons r rest ih => intro w h; exact ih _ h

theorem options_foldl_add_root (fs : FS) :
    ∀ (roots : List FsPath) (w : DirectoryWalker),
    (roots.foldl (fun w p => DirectoryWalker.add_root fs w p) w).options = w.options := by
  intro roots
  induction roots with
  | nil => intro w; rfl
  | cons r rest ih => intro w; exact ih _

theorem BlocksOk_initialWalker (fs : FS) (roots : List FsPath) (opts : WalkOptions) :
    BlocksOk (initialWalker fs roots opts) ∧ (initialWalker fs roots opts).options = opts := by
  constructor
  · apply BlocksOk_foldl_add_root
    simp [BlocksOk, DirectoryWalker.new, sumLens]
  · exact options_foldl_add_root fs roots _

theorem walkLoop_stops_when_truncated (fs : FS) (w : DirectoryWalker)
    (h : w.truncated = true) :
    ∀ (fuel : Nat) (q : List FsPath), walkLoop fs fuel w q = some (.ok w) := by
  intro fuel q
  cases q with
  | nil => exact walkLoop_nil fs fuel w
  | cons p rest => cases fuel <;> simp [walkLoop, h]

/-- Claim C4 (amended): whenever a walk stops at walker state `w'`,
`truncated` is true iff exactly one truncation-marker block was emitted;
that marker is the final block, everything before it is an ordinary
non-marker block whose lengths sum to at most `maxAggregateSize`, all
further traversal stops, and the assembled content length is at most
`maxAggregateSize + markerLength + (#blocks − 1)` — the last term being
the newline separators `join("\n")` inserts, which the source's own test
allows for (walker.rs line 450: `<= DEFAULT_MAX_SIZE + 1000`). -/
theorem c4_truncation_marker_shape (fs : FS) (fuel : Nat) (roots : List FsPath)
    (opts : WalkOptions) (w' : DirectoryWalker)
    (h : walk_and_collectW fs fuel roots opts = some (.ok w')) :
    (w'.truncated = true ↔ (w'.contents.filter isMarkerBlock).length = 1)
    ∧ (w'.truncated = true →
        ∃ pre mb, w'.contents = pre ++ [mb] ∧ isMarkerBlock mb = true
          ∧ (∀ b ∈ pre, isMarkerBlock b = false)
          ∧ sumLens pre ≤ opts.max_size
          ∧ (strJoinSep "\n" w'.contents).length ≤
              opts.max_size + mb.length + (w'.contents.length - 1))
    ∧ (w'.truncated = true → ∀ fuel2 q, walkLoop fs fuel2 w' q = some (.ok w'))
    ∧ (w'.truncated = false → (w'.contents.filter isMarkerBlock).length = 0) := by
  have hinit := BlocksOk_initialWalker fs roots opts
  have hloop := BlocksOk_walkLoop fs fuel (initialWalker fs roots opts).root_paths
    (initialWalker fs roots opts) hinit.1 w' h
  have hopts : w'.options = opts := by rw [hloop.2, hinit.2]
  have hbo := hloop.1
  by_cases ht : w'.truncated = true
  · simp only [BlocksOk, ht, if_true] at hbo
    obtain ⟨pre, mb, hc, hmb, hpre, hsum⟩ := hbo
    rw [hopts] at hsum
    have hfilter : w'.contents.filter isMarkerBlock = [mb] := by
      rw [hc, List.filter_append]
      have hpf : pre.filter isMarkerBlock = [] := by
        rw [List.filter_eq_nil_iff]
        intro a ha
        simp [hpre a ha]
      rw [hpf]
      simp [hmb]
    refine ⟨⟨fun _ => by rw [hfilter]; rfl, fun _ => ht⟩, ?_, ?_, ?_⟩
    · intro _
      refine ⟨pre, mb, hc, hmb, hpre, hsum, ?_⟩
      rw [strJoinSep_newline_length, hc, sumLens_append_single]
      omega
    · intro _
      exact walkLoop_stops_when_truncated fs w' ht
    · intro hf
      rw [hf] at ht
      exact absurd ht (by simp)
  · have htf : w'.truncated = false := bool_eq_false ht
    simp only [BlocksOk, htf, Bool.false_eq_true, if_false] at hbo
    obtain ⟨hnm, _, _⟩ := hbo
    have hfilter : w'.contents.filter isMarkerBlock = [] := by
      rw [List.filter_eq_nil_iff]
      intro a ha
      simp [hnm a ha]
    refine ⟨⟨fun hcon => absurd hcon ht, fun hlen => ?_⟩, ?_, ?_, ?_⟩
    · rw [hfilter] at hlen
      exact absurd hlen (by simp)
    · intro hcon
      exact absurd hcon ht
    · intro hcon
      exact absurd hcon ht
    · intro _
      rw [hfilter]
      rfl

/-- Witness for C4's theorem: the three-file tree under a 26-byte cap
really ends in exactly the marker block, within the stated bound. -/
theorem c4_truncation_marker_witness :
    ∃ pre mb,
      ["--- d/a ---\nx", "--- d/b ---\nx", truncationMarker 26 26 39] = pre ++ [mb]
      ∧ isMarkerBlock mb = true
      ∧ (∀ b ∈ pre, isMarkerBlock b = false)
      ∧ sumLens pre ≤ optsCap26.max_size
      ∧ (strJoinSep "\n"
            ["--- d/a ---\nx", "--- d/b ---\nx", truncationMarker 26 26 39]).length ≤
          optsCap26.max_size + mb.length +
            (["--- d/a ---\nx", "--- d/b ---\nx", truncationMarker 26 26 39].length - 1) :=
  (c4_truncation_marker_shape fsThreeFiles 5 [["d"]] optsCap26 _ rfl).2.1 rfl

/-- Counterexample to C4's `content.length <= maxAggregateSize +
markerLength`: with cap 26 the truncated content is 126 characters long
while the marker is 98, and `126 > 26 + 98` — the two `join`-inserted
newlines push the total past the claimed bound. -/
theorem c4_content_length_exceeds_bound :
    (walk_and_collect fsThreeFiles 5 0 [["d"]] optsCap26).map
        (Except.map (fun r => (r.truncated, r.content.length))) = some (.ok (true, 126))
    ∧ (walk_and_collectW fsThreeFiles 5 [["d"]] optsCap26).map
        (Except.map (fun w => w.contents.getLast?)) =
      some (.ok (some (truncationMarker 26 26 39)))
    ∧ (truncationMarker 26 26 39).length = 98
    ∧ 126 > 26 + 98 :=
  ⟨rfl, rfl, rfl, by omega⟩
